import Mathlib

/-! # TandemCertForge: certificate issuance and publication pipeline

A shallow embedding of `src/utils/HttpManager.js`, `src/utils/CommandExecutor.js`
and `src/services/CertificateManager.js`.

Modelling conventions.

* Promises are modelled by their settled outcome: `Except JsError α`, where
  `.ok` is a resolved and `.error` a rejected promise.
* Everything the JavaScript runtime supplies (`JSON.parse`, `new URL`, string
  conversion in template literals, the file system, the network peer, the
  spawned process) is a field of a runtime record that the embedded functions
  receive as their first argument.
* A string handed to `JSON.stringify` is carried as the value that is being
  serialised (`Payload.json v` stands for the text `JSON.stringify(v)`).
* JavaScript strings are Lean strings, buffers are lists of bytes, and the
  bytes that `req.write` emits for a string are its UTF-8 encoding.
* JSON numbers are modelled by integers.
-/

namespace TandemCertForge

/-! ## JavaScript values -/

/-- A JavaScript value as produced by `JSON.parse`, plus `undefined`. -/
inductive JsVal where
  | undefined
  | null
  | bool (b : Bool)
  | num (n : Int)
  | str (s : String)
  | arr (items : List JsVal)
  | obj (fields : List (String × JsVal))

namespace JsVal

/-- JavaScript truthiness (`ToBoolean`), as used by `!x` and `if (x)`. -/
def truthy : JsVal → Bool
  | undefined => false
  | null => false
  | bool b => b
  | num n => n != 0
  | str s => s != ""
  | arr _ => true
  | obj _ => true

/-- Property read `v.key` for a key that names no built-in property
(`token`, `id`, `nice_name`). `none` is the `TypeError` raised when `v` is
`undefined` or `null`; a missing property reads as `undefined`. -/
def getProp (v : JsVal) (key : String) : Option JsVal :=
  match v with
  | undefined => none
  | null => none
  | obj fields => some ((fields.lookup key).getD undefined)
  | _ => some undefined

/-- An object has an own property `key`. -/
def hasField (v : JsVal) (key : String) : Bool :=
  match v with
  | obj fields => (fields.lookup key).isSome
  | _ => false

/-- Strict equality `v === s` against a string. -/
def strictEqStr (v : JsVal) (s : String) : Bool :=
  match v with
  | str t => t == s
  | _ => false

end JsVal

/-- An exception value: either `new Error(message)` raised by the repository
code, or an exception raised by the runtime (a `TypeError`, a file-system or
socket error). -/
inductive JsError where
  | mk (message : String)
  | runtime (detail : String)
  deriving DecidableEq, Repr

/-! ## HttpManager -/

/-- The two Node modules `http` and `https`. -/
inductive HttpModule where
  | http
  | https
  deriving DecidableEq, Repr

/-- The options object handed to `module.request`. -/
structure RequestOptions where
  hostname : String
  port : JsVal
  path : String
  method : String
  headers : List (String × JsVal)

/-- An element of the `chunks` array: a string or a `Buffer`. -/
inductive Chunk where
  | str (s : String)
  | buf (b : List UInt8)
  deriving DecidableEq, Repr

/-- What is written to the request. -/
inductive Payload where
  | empty
  | json (v : JsVal)
  | chunks (cs : List Chunk)

/-- The body written by `if (postData) req.write(postData)`. -/
def Payload.ofPostData : Option JsVal → Payload
  | some v => Payload.json v
  | none => Payload.empty

/-- A request as it leaves the process: the module, the options and the body. -/
structure Sent where
  module : HttpModule
  options : RequestOptions
  body : Payload

/-- What the network gives back for a request: a complete response, that is its
status code and the `Buffer` chunks of its body in the order of their `data`
events, or an `error` event on the request. -/
inductive NetResult where
  | response (statusCode : Int) (chunks : List (List UInt8))
  | error (e : JsError)

/-- The fields of a parsed `URL` object that the code reads. -/
structure URLRecord where
  protocol : String
  hostname : String
  port : String
  pathname : String
  deriving DecidableEq, Repr

/-- The services of the JavaScript runtime used by the networking code; `σ` is
the state of the remote server. -/
structure Runtime (σ : Type) where
  /-- The call `JSON.parse(text)`; `none` when it throws. -/
  jsonParse : String → Option JsVal
  /-- The string conversion applied inside a template literal. -/
  toStr : JsVal → String
  /-- The string conversion of a `Buffer` in `data += chunk`. -/
  bufferToString : List UInt8 → String
  /-- Constructor `new URL(input, base)`; an error when it throws. -/
  newURL : String → String → Except JsError URLRecord
  /-- The call `fs.readFileSync(path)`. -/
  readFileSync : String → Except JsError (List UInt8)
  /-- The call `module.request(options, ...)` with the body written, up to the `end`
  event of the response or the `error` event of the request. -/
  exchange : Sent → σ → NetResult × σ

/-- The observable state: the remote server and the requests issued so far. -/
structure World (σ : Type) where
  remote : σ
  sent : List Sent

/-- The UTF-8 encoding of a string, as a list of bytes. -/
def utf8 (s : String) : List UInt8 := s.toUTF8.data.toList

/-- The string `n.toString(16)` for a non-negative integer. -/
def toHex (n : Nat) : String := String.mk (Nat.toDigits 16 n)

/-- Assignment `obj[key] = value` on an object literal: an existing key keeps
its position, a new key goes last. -/
def setKey (key : String) (value : JsVal) : List (String × JsVal) → List (String × JsVal)
  | [] => [(key, value)]
  | (k, v) :: rest => if k = key then (key, value) :: rest else (k, v) :: setKey key value rest

namespace Chunk

/-- The bytes `req.write(chunk)` puts on the wire. -/
def bytes : Chunk → List UInt8
  | str s => utf8 s
  | buf b => b

/-- The summand `typeof chunk === 'string' ? Buffer.byteLength(chunk) : chunk.length`. -/
def byteLength : Chunk → Nat
  | str s => s.utf8ByteSize
  | buf b => b.length

end Chunk

/-- The bytes written by `for (const chunk of chunks) req.write(chunk)`. -/
def writtenBytes (chunks : List Chunk) : List UInt8 :=
  chunks.flatMap Chunk.bytes

/-- The state of a UTF-8 decoder between two bytes: the code point being
assembled, the number of continuation bytes still needed, and the range in which
the next continuation byte must lie. -/
structure DecoderState where
  codePoint : Nat
  needed : Nat
  lower : Nat
  upper : Nat

/-- The decoder between two characters. -/
def DecoderState.rest : DecoderState :=
  { codePoint := 0, needed := 0, lower := 0x80, upper := 0xBF }

/-- A byte read between two characters: an ASCII byte is a character, a lead byte
opens a sequence, any other byte is replaced by U+FFFD. The characters are
collected in reverse. -/
def decodeLead (b : Nat) (out : List Char) : DecoderState × List Char :=
  if b < 0x80 then (DecoderState.rest, Char.ofNat b :: out)
  else if 0xC2 ≤ b ∧ b ≤ 0xDF then
    ({ codePoint := b % 0x20, needed := 1, lower := 0x80, upper := 0xBF }, out)
  else if 0xE0 ≤ b ∧ b ≤ 0xEF then
    ({ codePoint := b % 0x10, needed := 2,
       lower := if b = 0xE0 then 0xA0 else 0x80,
       upper := if b = 0xED then 0x9F else 0xBF }, out)
  else if 0xF0 ≤ b ∧ b ≤ 0xF4 then
    ({ codePoint := b % 0x08, needed := 3,
       lower := if b = 0xF0 then 0x90 else 0x80,
       upper := if b = 0xF4 then 0x8F else 0xBF }, out)
  else (DecoderState.rest, Char.ofNat 0xFFFD :: out)

/-- One byte of input: inside a sequence, a byte outside the expected range ends
the sequence with U+FFFD and is read again as a first byte. -/
def decodeByte (acc : DecoderState × List Char) (byte : UInt8) : DecoderState × List Char :=
  let st := acc.1
  let b := byte.toNat
  if st.needed = 0 then decodeLead b acc.2
  else if b < st.lower ∨ st.upper < b then decodeLead b (Char.ofNat 0xFFFD :: acc.2)
  else if st.needed = 1 then
    (DecoderState.rest, Char.ofNat (st.codePoint * 0x40 + b % 0x40) :: acc.2)
  else
    ({ codePoint := st.codePoint * 0x40 + b % 0x40, needed := st.needed - 1,
       lower := 0x80, upper := 0xBF }, acc.2)

/-- The conversion of a `Buffer` to a string in Node: UTF-8 decoding in which
every ill-formed sequence, also one cut off by the end of the buffer, becomes
U+FFFD. The example runtimes use it as their `bufferToString`. -/
def utf8Decode (bytes : List UInt8) : String :=
  let final := bytes.foldl decodeByte (DecoderState.rest, [])
  String.mk (if final.1.needed = 0 then final.2 else Char.ofNat 0xFFFD :: final.2).reverse

namespace HttpManager

/-- The variable `data` at the `end` event of a response, after
`let data = ''` and `data += chunk` for every chunk: each chunk is converted to a
string on its own and appended. -/
def accumulate {σ : Type} (rt : Runtime σ) (chunks : List (List UInt8)) : String :=
  chunks.foldl (fun data chunk => data ++ rt.bufferToString chunk) ""

/-- The method `HttpManager.getHttpModule(url)`. -/
def getHttpModule (url : String) : HttpModule :=
  if "https".data.isPrefixOf url.data then HttpModule.https else HttpModule.http

/-- The boundary of `makeFileUploadRequest`: 24 hyphens and `Date.now()` in
hexadecimal. -/
def boundary (now : Nat) : String :=
  "------------------------" ++ toHex now

/-- The `for ... of Object.entries(files)` loop of `makeFileUploadRequest`:
each iteration reads the file and pushes five chunks. -/
def pushFiles (readFileSync : String → Except JsError (List UInt8)) (boundary : String) :
    List (String × String) → List Chunk → Except JsError (List Chunk)
  | [], chunks => .ok chunks
  | (fieldName, filePath) :: rest, chunks =>
    match readFileSync filePath with
    | .error e => .error e
    | .ok fileContent =>
      pushFiles readFileSync boundary rest (chunks ++ [
        Chunk.str ("--" ++ boundary ++ "\r\n"),
        Chunk.str ("Content-Disposition: form-data; name=\"" ++ fieldName ++
          "\"; filename=\"" ++ filePath ++ "\"\r\n"),
        Chunk.str "Content-Type: application/octet-stream\r\n\r\n",
        Chunk.buf fileContent,
        Chunk.str "\r\n"])

/-- The `chunks` array of `makeFileUploadRequest` once the closing delimiter
has been pushed. -/
def buildChunks (readFileSync : String → Except JsError (List UInt8)) (boundary : String)
    (files : List (String × String)) : Except JsError (List Chunk) :=
  match pushFiles readFileSync boundary files [] with
  | .error e => .error e
  | .ok chunks => .ok (chunks ++ [Chunk.str ("--" ++ boundary ++ "--\r\n")])

/-- The `Content-Length` value: the `chunks.reduce(...)` of the source. -/
def contentLength (chunks : List Chunk) : Nat :=
  chunks.foldl (fun acc chunk => acc + chunk.byteLength) 0

/-- The request that `makeFileUploadRequest` hands to `module.request`: the
options with the two multipart headers set, and the chunks as body. The
exception of a failed file read is the outcome when a file cannot be read. -/
def uploadRequest (readFileSync : String → Except JsError (List UInt8)) (now : Nat)
    (options : RequestOptions) (files : List (String × String)) (module : HttpModule) :
    Except JsError Sent :=
  let boundary := boundary now
  match buildChunks readFileSync boundary files with
  | .error e => .error e
  | .ok chunks =>
    let headers := setKey "Content-Length" (JsVal.num (contentLength chunks))
      (setKey "Content-Type" (JsVal.str ("multipart/form-data; boundary=" ++ boundary))
        options.headers)
    .ok { module := module, options := { options with headers := headers },
          body := Payload.chunks chunks }

/-- The method `HttpManager.makeRequest(options, postData, module)`. -/
def makeRequest {σ : Type} (rt : Runtime σ) (options : RequestOptions)
    (postData : Option JsVal) (module : HttpModule) (w : World σ) :
    Except JsError JsVal × World σ :=
  let sent : Sent :=
    { module := module, options := options, body := Payload.ofPostData postData }
  let out := rt.exchange sent w.remote
  let w1 : World σ := { remote := out.2, sent := w.sent ++ [sent] }
  match out.1 with
  | .error e => (.error e, w1)
  | .response statusCode chunks =>
    let data := accumulate rt chunks
    if 200 ≤ statusCode ∧ statusCode < 300 then
      match rt.jsonParse data with
      | some v => (.ok v, w1)
      | none => (.ok (JsVal.str data), w1)
    else
      (.error (JsError.mk
        ("Request failed with status " ++ toString statusCode ++ ": " ++ data)), w1)

/-- The method `HttpManager.makeFileUploadRequest(options, files, module)`; `now` is the
value of `Date.now()` in this call. -/
def makeFileUploadRequest {σ : Type} (rt : Runtime σ) (now : Nat) (options : RequestOptions)
    (files : List (String × String)) (module : HttpModule) (w : World σ) :
    Except JsError JsVal × World σ :=
  match uploadRequest rt.readFileSync now options files module with
  | .error e => (.error e, w)
  | .ok sent =>
    let out := rt.exchange sent w.remote
    let w1 : World σ := { remote := out.2, sent := w.sent ++ [sent] }
    match out.1 with
    | .error e => (.error e, w1)
    | .response statusCode chunks =>
      let data := accumulate rt chunks
      if 200 ≤ statusCode ∧ statusCode < 300 then
        match rt.jsonParse data with
        | some v => (.ok v, w1)
        | none => (.ok (JsVal.str data), w1)
      else
        (.error (JsError.mk
          ("Request failed with status " ++ toString statusCode ++ ": " ++ data)), w1)

end HttpManager

/-! ## CommandExecutor -/

/-- How a spawned process ends: a `close` event with an exit code (`null` when
the process was killed by a signal), or an `error` event with a message. -/
inductive ProcOutcome where
  | close (code : Option Int)
  | error (message : String)
  deriving DecidableEq, Repr

/-- The services of the runtime used by certificate generation; `φ` is the
state of the file system. -/
structure ProcRuntime (φ : Type) where
  /-- The call `spawn(command, args, ...)` up to its first `close` or `error` event. -/
  spawn : String → List String → φ → ProcOutcome × φ
  /-- The call `fs.existsSync(path)`. -/
  existsSync : String → φ → Bool
  /-- The call `fs.chmodSync(path, mode)`, which may throw. -/
  chmodSync : String → Nat → φ → Except JsError φ

/-- The file system and the processes spawned so far. -/
structure ProcWorld (φ : Type) where
  fs : φ
  spawned : List (String × List String)

namespace CommandExecutor

/-- The method `CommandExecutor.execute(command, args)`. -/
def execute {φ : Type} (sys : ProcRuntime φ) (command : String) (args : List String)
    (w : ProcWorld φ) : Except JsError Unit × ProcWorld φ :=
  let out := sys.spawn command args w.fs
  let w1 : ProcWorld φ := { fs := out.2, spawned := w.spawned ++ [(command, args)] }
  match out.1 with
  | .close code =>
    if code = some 0 then
      (.ok (), w1)
    else
      (.error (JsError.mk ("Command failed with exit code " ++
        (match code with
          | some c => toString c
          | none => "null"))), w1)
  | .error message =>
    (.error (JsError.mk ("Execution error: " ++ message)), w1)

end CommandExecutor

/-! ## CertificateManager -/

/-- The `stepCa` section of the configuration. -/
structure StepCaConfig where
  url : String
  root : String
  provisioner : String
  deriving DecidableEq, Repr

/-- The `domain` section of the configuration. -/
structure DomainConfig where
  suffix : String
  deriving DecidableEq, Repr

/-- The `npm` section of the configuration. -/
structure NpmConfig where
  url : String
  email : String
  password : String
  deriving DecidableEq, Repr

/-- The application configuration (`this.config`). -/
structure Config where
  stepCa : StepCaConfig
  domain : DomainConfig
  npm : NpmConfig
  deriving DecidableEq, Repr

/-- The object `{ certFile, keyFile }`. -/
structure CertFiles where
  certFile : String
  keyFile : String
  deriving DecidableEq, Repr

namespace CertificateManager

/-- The array `args` of `generateCertificate`. -/
def args (domain url root : String) : List String :=
  ["ca", "certificate",
   domain,
   domain ++ ".crt",
   domain ++ ".key",
   "--not-after=87600h",
   "--ca-url", url,
   "--root", root]

/-- The method `generateCertificate(domain)`. -/
def generateCertificate {φ : Type} (sys : ProcRuntime φ) (config : Config) (domain : String)
    (w : ProcWorld φ) : Except JsError CertFiles × ProcWorld φ :=
  let url := config.stepCa.url
  let root := config.stepCa.root
  if url = "" ∨ root = "" then
    (.error (JsError.mk "Missing Step CA configuration. Please run: tcf configure"), w)
  else
    let certFile := domain ++ ".crt"
    let keyFile := domain ++ ".key"
    match CommandExecutor.execute sys "step" (args domain url root) w with
    | (.error e, w1) => (.error e, w1)
    | (.ok _, w1) =>
      if !sys.existsSync certFile w1.fs || !sys.existsSync keyFile w1.fs then
        (.error (JsError.mk "Certificate files were not generated"), w1)
      else
        match sys.chmodSync certFile 0o644 w1.fs with
        | .error e => (.error e, w1)
        | .ok fs2 =>
          match sys.chmodSync keyFile 0o644 fs2 with
          | .error e => (.error e, { w1 with fs := fs2 })
          | .ok fs3 =>
            (.ok { certFile := certFile, keyFile := keyFile }, { w1 with fs := fs3 })

/-- The method `authenticateNPM()`. -/
def authenticateNPM {σ : Type} (rt : Runtime σ) (config : Config) (w : World σ) :
    Except JsError JsVal × World σ :=
  let url := config.npm.url
  let email := config.npm.email
  let password := config.npm.password
  if url = "" ∨ email = "" ∨ password = "" then
    (.error (JsError.mk "Missing NPM configuration. Please run: tcf configure"), w)
  else
    let httpModule := HttpManager.getHttpModule url
    match rt.newURL "/api/tokens" url with
    | .error e => (.error e, w)
    | .ok apiUrl =>
      let options : RequestOptions :=
        { hostname := apiUrl.hostname,
          port := if apiUrl.port ≠ "" then JsVal.str apiUrl.port
            else (if apiUrl.protocol = "https:" then JsVal.num 443 else JsVal.num 80),
          path := apiUrl.pathname,
          method := "POST",
          headers := [("Content-Type", JsVal.str "application/json")] }
      match HttpManager.makeRequest rt options
          (some (JsVal.obj [("identity", JsVal.str email), ("secret", JsVal.str password)]))
          httpModule w with
      | (.error e, w1) => (.error e, w1)
      | (.ok data, w1) =>
        match data.getProp "token" with
        | none => (.error (JsError.runtime "TypeError"), w1)
        | some token =>
          if !token.truthy then
            (.error (JsError.mk "Authentication failed: No token received"), w1)
          else
            (.ok token, w1)

/-- The object `options` of `validateCertificates` and of
`uploadCertificateToNPM`, built from the parsed URL of the call. -/
def options {σ : Type} (rt : Runtime σ) (apiUrl : URLRecord) (token : JsVal) :
    RequestOptions :=
  { hostname := apiUrl.hostname,
    port := JsVal.str apiUrl.port,
    path := apiUrl.pathname,
    method := "POST",
    headers := [("Authorization", JsVal.str ("Bearer " ++ rt.toStr token))] }

/-- The object `files` of `validateCertificates` and of `uploadCertificateToNPM`,
as `Object.entries` lists it. -/
def files (certFiles : CertFiles) : List (String × String) :=
  [("certificate", certFiles.certFile), ("certificate_key", certFiles.keyFile)]

/-- The method `validateCertificates(certFiles, token)`; `now` is `Date.now()` inside the
upload request. -/
def validateCertificates {σ : Type} (rt : Runtime σ) (config : Config) (now : Nat)
    (certFiles : CertFiles) (token : JsVal) (w : World σ) :
    Except JsError Unit × World σ :=
  let url := config.npm.url
  match rt.newURL "/api/nginx/certificates/validate" url with
  | .error e => (.error e, w)
  | .ok apiUrl =>
    let httpModule := HttpManager.getHttpModule url
    match HttpManager.makeFileUploadRequest rt now (options rt apiUrl token)
        (files certFiles) httpModule w with
    | (.error e, w1) => (.error e, w1)
    | (.ok _, w1) => (.ok (), w1)

/-- The call `certificates.find(cert => cert.nice_name === domain)` on the elements of
an array: the first matching element, `undefined` when there is none, and the
`TypeError` of reading a property of `null` when the scan meets one. -/
def find (domain : String) : List JsVal → Except JsError JsVal
  | [] => .ok JsVal.undefined
  | cert :: rest =>
    match cert.getProp "nice_name" with
    | none => .error (JsError.runtime "TypeError")
    | some niceName => if niceName.strictEqStr domain then .ok cert else find domain rest

/-- The object `listOptions` of `getOrCreateCertificateId`. -/
def listOptions {σ : Type} (rt : Runtime σ) (apiUrl : URLRecord) (token : JsVal) :
    RequestOptions :=
  { hostname := apiUrl.hostname,
    port := JsVal.str apiUrl.port,
    path := apiUrl.pathname,
    method := "GET",
    headers := [("Authorization", JsVal.str ("Bearer " ++ rt.toStr token))] }

/-- The object `createOptions` of `getOrCreateCertificateId`. -/
def createOptions {σ : Type} (rt : Runtime σ) (apiUrl : URLRecord) (token : JsVal) :
    RequestOptions :=
  { hostname := apiUrl.hostname,
    port := JsVal.str apiUrl.port,
    path := apiUrl.pathname,
    method := "POST",
    headers := [("Authorization", JsVal.str ("Bearer " ++ rt.toStr token)),
      ("Content-Type", JsVal.str "application/json")] }

/-- The object `createData` of `getOrCreateCertificateId`. -/
def createData (domain : String) : JsVal :=
  JsVal.obj [("nice_name", JsVal.str domain), ("provider", JsVal.str "other")]

/-- The method `getOrCreateCertificateId(domain, token)`. -/
def getOrCreateCertificateId {σ : Type} (rt : Runtime σ) (config : Config) (domain : String)
    (token : JsVal) (w : World σ) : Except JsError JsVal × World σ :=
  let url := config.npm.url
  let httpModule := HttpManager.getHttpModule url
  match rt.newURL "/api/nginx/certificates" url with
  | .error e => (.error e, w)
  | .ok apiUrl =>
    match HttpManager.makeRequest rt (listOptions rt apiUrl token) none httpModule w with
    | (.error e, w1) => (.error e, w1)
    | (.ok certificates, w1) =>
      match certificates with
      | JsVal.arr items =>
        match find domain items with
        | .error e => (.error e, w1)
        | .ok existingCert =>
          if existingCert.truthy then
            match existingCert.getProp "id" with
            | none => (.error (JsError.runtime "TypeError"), w1)
            | some id => (.ok id, w1)
          else
            match HttpManager.makeRequest rt (createOptions rt apiUrl token)
                (some (createData domain)) httpModule w1 with
            | (.error e, w2) => (.error e, w2)
            | (.ok createResponse, w2) =>
              match createResponse.getProp "id" with
              | none => (.error (JsError.runtime "TypeError"), w2)
              | some id =>
                if !id.truthy then
                  (.error (JsError.mk "Failed to create certificate entry"), w2)
                else
                  (.ok id, w2)
      | _ => (.error (JsError.runtime "TypeError"), w1)

/-- The method `uploadCertificateToNPM(domain, certFiles, token)`; `nowValidate` and
`nowUpload` are the values of `Date.now()` in the two upload requests. -/
def uploadCertificateToNPM {σ : Type} (rt : Runtime σ) (config : Config)
    (nowValidate nowUpload : Nat) (domain : String) (certFiles : CertFiles) (token : JsVal)
    (w : World σ) : Except JsError Unit × World σ :=
  let url := config.npm.url
  match validateCertificates rt config nowValidate certFiles token w with
  | (.error e, w1) => (.error e, w1)
  | (.ok _, w1) =>
    match getOrCreateCertificateId rt config domain token w1 with
    | (.error e, w2) => (.error e, w2)
    | (.ok certId, w2) =>
      match rt.newURL ("/api/nginx/certificates/" ++ rt.toStr certId ++ "/upload") url with
      | .error e => (.error e, w2)
      | .ok uploadUrl =>
        let httpModule := HttpManager.getHttpModule url
        match HttpManager.makeFileUploadRequest rt nowUpload (options rt uploadUrl token)
            (files certFiles) httpModule w2 with
        | (.error e, w3) => (.error e, w3)
        | (.ok _, w3) => (.ok (), w3)

end CertificateManager

/-! ## Parts and example environments -/

/-- One entry of the `files` object together with the bytes of the file. -/
structure Part where
  fieldName : String
  filePath : String
  fileContent : List UInt8
  deriving DecidableEq, Repr

/-- The `[fieldName, filePath]` pair that `Object.entries(files)` yields. -/
def Part.entry (p : Part) : String × String := (p.fieldName, p.filePath)

/-- The file system returns, for each part, the bytes of that part. -/
def Readable (readFileSync : String → Except JsError (List UInt8)) (parts : List Part) : Prop :=
  ∀ p ∈ parts, readFileSync p.filePath = .ok p.fileContent

/-- An example runtime with a stateless peer: every request is answered with
the same status code and body, sent as a single chunk, `JSON.parse` accepts only
the text `[]`, and the only file is `a.crt`, holding the two bytes `hi`. -/
def fixedRuntime (statusCode : Int) (data : String) : Runtime Unit where
  jsonParse := fun text => if text = "[]" then some (JsVal.arr []) else none
  toStr := fun v =>
    match v with
    | JsVal.str s => s
    | JsVal.num n => toString n
    | _ => "undefined"
  newURL := fun input _ =>
    .ok { protocol := "https:", hostname := "npm.local", port := "", pathname := input }
  readFileSync := fun path =>
    if path = "a.crt" then .ok [104, 105] else .error (JsError.runtime "ENOENT")
  bufferToString := utf8Decode
  exchange := fun _ s => (NetResult.response statusCode [utf8 data], s)

/-- The world before any request. -/
def World.start : World Unit := { remote := (), sent := [] }

/-- Example request options. -/
def exampleOptions : RequestOptions :=
  { hostname := "npm.local", port := JsVal.str "", path := "/api", method := "POST",
    headers := [] }

/-- The five chunks that one iteration of the loop of `makeFileUploadRequest`
pushes for a part. -/
def partChunks (boundary : String) (p : Part) : List Chunk :=
  [Chunk.str ("--" ++ boundary ++ "\r\n"),
   Chunk.str ("Content-Disposition: form-data; name=\"" ++ p.fieldName ++
     "\"; filename=\"" ++ p.filePath ++ "\"\r\n"),
   Chunk.str "Content-Type: application/octet-stream\r\n\r\n",
   Chunk.buf p.fileContent,
   Chunk.str "\r\n"]

/-! ## Decoding a multipart body

The round-trip property of the specification speaks of decoding the body with
the same boundary. The decoder below reads a body that starts with the
delimiter `--boundary`, as RFC 2046 lays it out. What follows a delimiter is
either `--`, which closes the body (what comes after it is ignored), or a line
end and a part. A part runs up to the next occurrence of a line end followed by
`--boundary`, looked for from the line end that closes the delimiter line, so in
the headers as well as in the content. In a part, the header lines are split at
line ends and stop at the first empty line; the first header line must be the
`Content-Disposition` line with the two quoted strings `name` and `filename`, in
which a backslash makes the next byte literal; the other header lines are
skipped. -/

/-- A decoded part: the field name, the file name and the content, as bytes. -/
structure DecodedPart where
  name : List UInt8
  filename : List UInt8
  content : List UInt8
  deriving DecidableEq, Repr

/-- What decoding is expected to give back for a part. -/
def Part.decoded (p : Part) : DecodedPart :=
  { name := utf8 p.fieldName, filename := utf8 p.filePath, content := p.fileContent }

/-- Consume `pat` at the head of the input; `none` when the input does not
start with it. -/
def expect (pat : List UInt8) (input : List UInt8) : Option (List UInt8) :=
  if pat.isPrefixOf input then some (input.drop pat.length) else none

/-- Split the input at the first occurrence of `pat`: the bytes before it and
the bytes after it. -/
def splitAtFirst (pat : List UInt8) : List UInt8 → Option (List UInt8 × List UInt8)
  | [] => if pat = [] then some ([], []) else none
  | x :: xs =>
    if pat.isPrefixOf (x :: xs) then
      some ([], (x :: xs).drop pat.length)
    else
      match splitAtFirst pat xs with
      | some (before, after) => some (x :: before, after)
      | none => none

/-- Read a quoted string after its opening quote: the bytes up to the closing
quote and what follows it. A backslash makes the next byte literal. -/
def readQuoted : List UInt8 → Option (List UInt8 × List UInt8)
  | [] => none
  | [b] => if b = 34 then some ([], []) else none
  | b :: c :: rest =>
    if b = 34 then some ([], c :: rest)
    else if b = 92 then
      match readQuoted rest with
      | some (text, after) => some (c :: text, after)
      | none => none
    else
      match readQuoted (c :: rest) with
      | some (text, after) => some (b :: text, after)
      | none => none

/-- Read the header line `Content-Disposition: form-data; name="..."; filename="..."`:
the name and the file name. -/
def parseDisposition (line : List UInt8) : Option (List UInt8 × List UInt8) :=
  match expect (utf8 "Content-Disposition: form-data; name=\"") line with
  | none => none
  | some r1 =>
    match readQuoted r1 with
    | none => none
    | some (name, r2) =>
      match expect (utf8 "; filename=\"") r2 with
      | none => none
      | some r3 =>
        match readQuoted r3 with
        | none => none
        | some (filename, r4) => if r4 = [] then some (name, filename) else none

/-- Skip the header lines that follow the first one, up to and with the empty
line: what is left is the content. The fuel bounds the number of lines. -/
def skipHeaders : Nat → List UInt8 → Option (List UInt8)
  | 0, _ => none
  | fuel + 1, input =>
    match expect (utf8 "\r\n") input with
    | some content => some content
    | none =>
      match splitAtFirst (utf8 "\r\n") input with
      | none => none
      | some (_, rest) => skipHeaders fuel rest

/-- Decode one part: the text between the line end of a delimiter line and the
next delimiter. A first line that holds a bare carriage return or line feed is
refused. -/
def decodePart (text : List UInt8) : Option DecodedPart :=
  match splitAtFirst (utf8 "\r\n") text with
  | none => none
  | some (line, rest) =>
    if line.contains 13 || line.contains 10 then none
    else
      match parseDisposition line with
      | none => none
      | some (name, filename) =>
        match skipHeaders (rest.length + 1) rest with
        | none => none
        | some content => some { name := name, filename := filename, content := content }

/-- Decode what follows a delimiter `--boundary`. The fuel bounds the number
of parts; each part consumes input, so the length of the body is enough. -/
def decodeParts (boundary : String) : Nat → List UInt8 → Option (List DecodedPart)
  | 0, _ => none
  | fuel + 1, input =>
    match expect (utf8 "--") input with
    | some _ => some []
    | none =>
      match splitAtFirst (utf8 ("\r\n--" ++ boundary)) input with
      | none => none
      | some (before, after) =>
        match expect (utf8 "\r\n") before with
        | none => none
        | some text =>
          match decodePart text with
          | none => none
          | some part =>
            match decodeParts boundary fuel after with
            | none => none
            | some parts => some (part :: parts)

/-- Decode a multipart body with the given boundary. -/
def decodeMultipart (boundary : String) (body : List UInt8) : Option (List DecodedPart) :=
  match expect (utf8 ("--" ++ boundary)) body with
  | none => none
  | some rest => decodeParts boundary (body.length + 1) rest

/-- A name that a quoted string of a header line carries unchanged: no double
quote, no backslash, no carriage return and no line feed. -/
def PlainName (name : String) : Prop :=
  ∀ c ∈ name.data,
    c ≠ Char.ofNat 34 ∧ c ≠ Char.ofNat 92 ∧ c ≠ Char.ofNat 13 ∧ c ≠ Char.ofNat 10

/-- The content neither holds a line end followed by `--boundary` nor starts
with `--boundary`: the delimiter does not occur in the content put after a line
end. -/
def FreeOfDelimiter (boundary : String) (content : List UInt8) : Prop :=
  ¬ utf8 ("\r\n--" ++ boundary) <:+: utf8 "\r\n" ++ content

/-- The round trip of the upload request built for `parts`: the request is
built, and decoding the bytes written for its chunks with the boundary of the
request gives back every field name, file name and file content, in order. -/
def RoundTrips (readFileSync : String → Except JsError (List UInt8)) (now : Nat)
    (options : RequestOptions) (parts : List Part) (module : HttpModule) : Prop :=
  ∃ sent chunks,
    HttpManager.uploadRequest readFileSync now options (parts.map Part.entry) module =
      .ok sent ∧
    sent.body = Payload.chunks chunks ∧
    decodeMultipart (HttpManager.boundary now) (writtenBytes chunks) =
      some (parts.map Part.decoded)

/-- A file whose content holds a line end followed by the delimiter that the
request built at time `0` uses. -/
def collidingPart : Part :=
  { fieldName := "certificate", filePath := "a.crt",
    fileContent := utf8 ("x\r\n--" ++ HttpManager.boundary 0 ++ "--\r\n") }

/-- The `Content-Disposition` line of a part, without its line end. -/
def dispositionLine (p : Part) : List UInt8 :=
  utf8 "Content-Disposition: form-data; name=\"" ++ (utf8 p.fieldName ++
    (utf8 "\"" ++ (utf8 "; filename=\"" ++ (utf8 p.filePath ++ utf8 "\""))))

/-- The text of a part between the line end of its delimiter line and the next
delimiter: the two header lines, the empty line and the content. -/
def partText (p : Part) : List UInt8 :=
  dispositionLine p ++ (utf8 "\r\n" ++ (utf8 "Content-Type: application/octet-stream" ++
    (utf8 "\r\n" ++ (utf8 "\r\n" ++ p.fileContent))))

/-- The bytes of the body that follow its first delimiter `--boundary`, part
by part, ending with the closing `--` and a line end. -/
def afterDelimiter (boundary : String) : List Part → List UInt8
  | [] => utf8 "--\r\n"
  | p :: ps =>
    utf8 "\r\n" ++ partText p ++
      (utf8 ("\r\n--" ++ boundary) ++ afterDelimiter boundary ps)

/-- A file system in which every path holds the content of `collidingPart`. -/
def collidingFs : String → Except JsError (List UInt8) :=
  fun _ => .ok collidingPart.fileContent

/-- A part of the example runtime: the file `a.crt` under the field
`certificate`. -/
def examplePart : Part :=
  { fieldName := "certificate", filePath := "a.crt", fileContent := [104, 105] }

/-! ## The body layout of the specification -/

/-- The base name of a path: what follows its last `/`. -/
def basename (path : String) : String :=
  String.mk (path.data.reverse.takeWhile (fun c => c != '/')).reverse

/-- The body that the specification lays out, with the file name of a part
computed from its path by `fileName`: for each part the delimiter line, the
`Content-Disposition` header, the `Content-Type` line, a blank line, the file
bytes and a line end; after the last part the closing delimiter line. -/
def layoutBody (fileName : String → String) (boundary : String) (parts : List Part) :
    List UInt8 :=
  parts.flatMap (fun p =>
    utf8 ("--" ++ boundary ++ "\r\n") ++
    utf8 ("Content-Disposition: form-data; name=\"" ++ p.fieldName ++
      "\"; filename=\"" ++ fileName p.filePath ++ "\"\r\n") ++
    utf8 "Content-Type: application/octet-stream\r\n" ++
    utf8 "\r\n" ++
    p.fileContent ++
    utf8 "\r\n") ++
  utf8 ("--" ++ boundary ++ "--\r\n")

/-- The upload request for `parts` is built and the bytes written for its
chunks are the laid-out body with the file names given by `fileName`. -/
def BodyIs (fileName : String → String)
    (readFileSync : String → Except JsError (List UInt8)) (now : Nat)
    (options : RequestOptions) (parts : List Part) (module : HttpModule) : Prop :=
  ∃ sent chunks,
    HttpManager.uploadRequest readFileSync now options (parts.map Part.entry) module =
      .ok sent ∧
    sent.body = Payload.chunks chunks ∧
    writtenBytes chunks = layoutBody fileName (HttpManager.boundary now) parts

/-- A part whose file lies in a directory. -/
def nestedPart : Part :=
  { fieldName := "certificate", filePath := "certs/a.crt", fileContent := [104, 105] }

/-- A file system in which every path holds the content of `nestedPart`. -/
def nestedFs : String → Except JsError (List UInt8) :=
  fun _ => .ok nestedPart.fileContent

/-- An example runtime whose peer answers every request with status 200 and
the JSON text of the string `é`, sent in two chunks that split the two bytes of
`é`; `JSON.parse` accepts only that text. -/
def splitRuntime : Runtime Unit where
  jsonParse := fun text => if text = "\"é\"" then some (JsVal.str "é") else none
  toStr := (fixedRuntime 200 "").toStr
  bufferToString := utf8Decode
  newURL := (fixedRuntime 200 "").newURL
  readFileSync := (fixedRuntime 200 "").readFileSync
  exchange := fun _ s => (NetResult.response 200 [[0x22, 0xC3], [0xA9, 0x22]], s)

/-! ## A scripted peer -/

/-- An example runtime with a stateless peer that answers a `GET` with status
200 and `listText`, a request with a JSON body with status 201 and
`createdText`, and any other request with status 200 and the text `ok`, each
body sent as a single chunk.
`JSON.parse` reads `listText` as `listing` and `createdText` as `created` and
rejects every other text. URLs resolve against `https://npm.local`, which has
no explicit port; the files are those of `fixedRuntime`. -/
def scriptedRuntime (listText : String) (listing : JsVal) (createdText : String)
    (created : JsVal) : Runtime Unit where
  jsonParse := fun text =>
    if text = listText then some listing
    else if text = createdText then some created
    else none
  toStr := (fixedRuntime 200 "").toStr
  bufferToString := utf8Decode
  newURL := (fixedRuntime 200 "").newURL
  readFileSync := (fixedRuntime 200 "").readFileSync
  exchange := fun sent s =>
    if sent.options.method = "GET" then (NetResult.response 200 [utf8 listText], s)
    else
      match sent.body with
      | Payload.json _ => (NetResult.response 201 [utf8 createdText], s)
      | _ => (NetResult.response 200 [utf8 "ok"], s)

/-- An example configuration whose registry URL has no explicit port. -/
def exampleConfig : Config :=
  { stepCa := { url := "https://ca.local", root := "root.crt", provisioner := "admin" },
    domain := { suffix := "local" },
    npm := { url := "https://npm.local", email := "me@npm.local", password := "secret" } }

/-- Example certificate files, both readable in the example runtimes. -/
def exampleCertFiles : CertFiles := { certFile := "a.crt", keyFile := "a.crt" }

/-- The method, path and port of every request issued so far, oldest first. -/
def World.trace {σ : Type} (w : World σ) : List (String × String × JsVal) :=
  w.sent.map (fun s => (s.options.method, s.options.path, s.options.port))

/-- A record is filed under `domain`: its `nice_name` field is the string
`domain`, compared exactly. -/
def isNamed (domain : String) (fields : List (String × JsVal)) : Bool :=
  match fields.lookup "nice_name" with
  | some (JsVal.str s) => s == domain
  | _ => false

/-- A peer whose listing holds one record filed under `svc.local`, with id 3. -/
def foundRuntime : Runtime Unit :=
  scriptedRuntime "[\x7b\"id\":3,\"nice_name\":\"svc.local\"\x7d]"
    (JsVal.arr ([[("id", JsVal.num 3), ("nice_name", JsVal.str "svc.local")]].map JsVal.obj))
    "\x7b\"id\":7\x7d" (JsVal.obj [("id", JsVal.num 7)])

/-- A peer whose listing is empty and whose creation response is the object
with the single field `id` equal to 0. -/
def zeroIdRuntime : Runtime Unit :=
  scriptedRuntime "[]" (JsVal.arr []) "\x7b\"id\":0\x7d" (JsVal.obj [("id", JsVal.num 0)])

/-- The URL record that the example runtimes give for the certificates path. -/
def exampleApiUrl : URLRecord :=
  { protocol := "https:", hostname := "npm.local", port := "",
    pathname := "/api/nginx/certificates" }

/-! ## The registry model -/

/-- The peer of `rt` behaves as a certificate registry for the name `domain`;
`records s` are the records stored in the state `s`. A `GET` leaves the state as
it is and answers with a success status and, as JSON, the stored records. A
`POST` whose JSON body asks for a record filed under `domain` answers with a
success status and, as JSON, a new record filed under `domain`, and appends that
record, with the id that the answer carries, to the stored ones. -/
structure RegistryModel {σ : Type} (rt : Runtime σ)
    (records : σ → List (List (String × JsVal))) (domain : String) : Prop where
  list : ∀ (sent : Sent) (s : σ), sent.options.method = "GET" →
    ∃ statusCode chunks,
      rt.exchange sent s = (NetResult.response statusCode chunks, s) ∧
      (200 ≤ statusCode ∧ statusCode < 300) ∧
      rt.jsonParse (HttpManager.accumulate rt chunks) =
        some (JsVal.arr ((records s).map JsVal.obj))
  create : ∀ (sent : Sent) (s : σ), sent.options.method = "POST" →
    sent.body = Payload.json (CertificateManager.createData domain) →
    ∃ statusCode chunks s1 fields,
      rt.exchange sent s = (NetResult.response statusCode chunks, s1) ∧
      (200 ≤ statusCode ∧ statusCode < 300) ∧
      rt.jsonParse (HttpManager.accumulate rt chunks) = some (JsVal.obj fields) ∧
      isNamed domain fields = true ∧
      records s1 = records s ++ [fields]

/-- The ids that the registry gives to the records filed under `domain` are
truthy. -/
def TruthyIds {σ : Type} (records : σ → List (List (String × JsVal))) (domain : String) :
    Prop :=
  ∀ s, ∀ fields ∈ records s, isNamed domain fields = true →
    ((fields.lookup "id").getD JsVal.undefined).truthy = true

/-- The record of the example registry whose id is `k`. -/
def unaryRecord (k : Nat) : List (String × JsVal) :=
  [("id", JsVal.num k), ("nice_name", JsVal.str "svc.local"), ("provider", JsVal.str "other")]

/-- The records of the example registry that numbers its records from `first`,
when it holds `n` of them. -/
def unaryRecords (first n : Nat) : List (List (String × JsVal)) :=
  (List.range n).map (fun i => unaryRecord (first + i))

/-- An example registry for the name `svc.local` that numbers its records from
`first`. Its state is the number of stored records. It speaks a unary wire
format in ASCII, each body sent as a single chunk: a listing of `n` records is the
letter `r` written `n` times, and the answer to a creation is the letter `c`
followed by the letter `r` written as many times as there were records before;
`JSON.parse` reads that format. -/
def unaryRegistry (first : Nat) : Runtime Nat where
  jsonParse := fun text =>
    match text.data with
    | 'c' :: rest => some (JsVal.obj (unaryRecord (first + rest.length)))
    | letters => some (JsVal.arr ((unaryRecords first letters.length).map JsVal.obj))
  toStr := (fixedRuntime 200 "").toStr
  bufferToString := fun bytes => String.mk (bytes.map (fun b => Char.ofNat b.toNat))
  newURL := (fixedRuntime 200 "").newURL
  readFileSync := (fixedRuntime 200 "").readFileSync
  exchange := fun sent n =>
    if sent.options.method = "GET" then
      (NetResult.response 200 [List.replicate n 114], n)
    else
      (NetResult.response 201 [99 :: List.replicate n 114], n + 1)

/-! ## The steps of a run -/

/-- The kind of a request body. -/
def Payload.kind : Payload → String
  | Payload.empty => "none"
  | Payload.json _ => "json"
  | Payload.chunks _ => "multipart"

/-- The method, the path and the kind of body of a request. -/
def Sent.step (s : Sent) : String × String × String :=
  (s.options.method, s.options.path, s.body.kind)

/-- The steps of all requests issued so far, oldest first. -/
def World.steps {σ : Type} (w : World σ) : List (String × String × String) :=
  w.sent.map Sent.step

/-- A peer with an empty listing whose creation response carries the id 7. -/
def createdRuntime : Runtime Unit :=
  scriptedRuntime "[]" (JsVal.arr []) "\x7b\"id\":7\x7d" (JsVal.obj [("id", JsVal.num 7)])

/-! ## Example process environments -/

/-- A process environment in which the process exits with code 0, every file
exists and every permission change succeeds. -/
def okProc : ProcRuntime Unit where
  spawn := fun _ _ fs => (ProcOutcome.close (some 0), fs)
  existsSync := fun _ _ => true
  chmodSync := fun _ _ fs => .ok fs

/-- A process environment in which the process exits with code 0 and every
file exists, but the permission change is refused. -/
def chmodRefused : ProcRuntime Unit where
  spawn := fun _ _ fs => (ProcOutcome.close (some 0), fs)
  existsSync := fun _ _ => true
  chmodSync := fun _ _ _ => .error (JsError.runtime "EPERM: operation not permitted, chmod")

/-- The process world before any process has been spawned. -/
def ProcWorld.start : ProcWorld Unit := { fs := (), spawned := [] }

/-! ## Example token peers -/

/-- A peer whose answer to the token request is the object with the single
field `token` equal to `abc`. -/
def tokenRuntime : Runtime Unit :=
  scriptedRuntime "[]" (JsVal.arr []) "\x7b\"token\":\"abc\"\x7d"
    (JsVal.obj [("token", JsVal.str "abc")])

/-- A peer whose answer to the token request is the empty object. -/
def noTokenRuntime : Runtime Unit :=
  scriptedRuntime "[]" (JsVal.arr []) "\x7b\x7d" (JsVal.obj [])

/-- A peer whose answer to the token request is the object with the single
field `token` equal to the empty string. -/
def emptyTokenRuntime : Runtime Unit :=
  scriptedRuntime "[]" (JsVal.arr []) "\x7b\"token\":\"\"\x7d"
    (JsVal.obj [("token", JsVal.str "")])

/-! ## Outcomes of a run -/

/-- What the response handler of `makeRequest` and of `makeFileUploadRequest`
settles the promise with, for an answer of the network. -/
def HttpManager.settle {σ : Type} (rt : Runtime σ) (answer : NetResult) :
    Except JsError JsVal :=
  match answer with
  | NetResult.error e => .error e
  | NetResult.response statusCode chunks =>
    if 200 ≤ statusCode ∧ statusCode < 300 then
      .ok ((rt.jsonParse (HttpManager.accumulate rt chunks)).getD
        (JsVal.str (HttpManager.accumulate rt chunks)))
    else
      .error (JsError.mk ("Request failed with status " ++ toString statusCode ++ ": " ++
        HttpManager.accumulate rt chunks))

/-- The outcome of an awaited upload request whose value is not used: the error
of the request, or nothing. -/
def uploadOutcome {σ : Type} (rt : Runtime σ) (answer : NetResult) : Except JsError Unit :=
  match HttpManager.settle rt answer with
  | .error e => .error e
  | .ok _ => .ok ()

/-- The text of the template literal for the upload URL. -/
def uploadPath {σ : Type} (rt : Runtime σ) (certId : JsVal) : String :=
  "/api/nginx/certificates/" ++ rt.toStr certId ++ "/upload"

/-- A peer like `createdRuntime` whose creation response carries the id `7?x`,
with a URL constructor that, as URL resolution does, ends the path at the first
question mark. -/
def queryRuntime : Runtime Unit where
  jsonParse := fun text =>
    if text = "[]" then some (JsVal.arr [])
    else if text = "\x7b\"id\":\"7?x\"\x7d" then some (JsVal.obj [("id", JsVal.str "7?x")])
    else none
  toStr := (fixedRuntime 200 "").toStr
  bufferToString := utf8Decode
  newURL := fun input _ =>
    .ok { protocol := "https:", hostname := "npm.local", port := "",
          pathname := String.mk (input.data.takeWhile (fun c => c != '?')) }
  readFileSync := (fixedRuntime 200 "").readFileSync
  exchange := fun sent s =>
    if sent.options.method = "GET" then (NetResult.response 200 [utf8 "[]"], s)
    else
      match sent.body with
      | Payload.json _ => (NetResult.response 201 [utf8 "\x7b\"id\":\"7?x\"\x7d"], s)
      | _ => (NetResult.response 200 [utf8 "ok"], s)

/-! ## Theorems -/

/-! ### Transport: outcome of a response -/

theorem accumulate_eq_join {σ : Type} (rt : Runtime σ) (chunks : List (List UInt8)) :
    HttpManager.accumulate rt chunks = String.join (chunks.map rt.bufferToString) := by
  unfold HttpManager.accumulate String.join
  rw [List.foldl_map]

theorem accumulate_single {σ : Type} (rt : Runtime σ) (body : List UInt8) :
    HttpManager.accumulate rt [body] = rt.bufferToString body := by
  simp [HttpManager.accumulate]

theorem makeRequest_of_response {σ : Type} (rt : Runtime σ) (options : RequestOptions)
    (postData : Option JsVal) (module : HttpModule) (w : World σ) (statusCode : Int)
    (chunks : List (List UInt8))
    (h : (rt.exchange (Sent.mk module options (Payload.ofPostData postData)) w.remote).1 =
      NetResult.response statusCode chunks) :
    (HttpManager.makeRequest rt options postData module w).1 =
      if 200 ≤ statusCode ∧ statusCode < 300 then
        .ok ((rt.jsonParse (HttpManager.accumulate rt chunks)).getD
          (JsVal.str (HttpManager.accumulate rt chunks)))
      else
        .error (JsError.mk ("Request failed with status " ++ toString statusCode ++ ": " ++
          HttpManager.accumulate rt chunks)) := by
  unfold HttpManager.makeRequest
  simp only [h]
  by_cases hs : 200 ≤ statusCode ∧ statusCode < 300
  · simp only [hs, and_self, if_true]
    cases rt.jsonParse (HttpManager.accumulate rt chunks) <;> rfl
  · simp only [hs, if_false]

theorem makeFileUploadRequest_of_response {σ : Type} (rt : Runtime σ) (now : Nat)
    (options : RequestOptions) (files : List (String × String)) (module : HttpModule)
    (w : World σ) (sent : Sent) (statusCode : Int) (chunks : List (List UInt8))
    (hsent : HttpManager.uploadRequest rt.readFileSync now options files module = .ok sent)
    (h : (rt.exchange sent w.remote).1 = NetResult.response statusCode chunks) :
    (HttpManager.makeFileUploadRequest rt now options files module w).1 =
      if 200 ≤ statusCode ∧ statusCode < 300 then
        .ok ((rt.jsonParse (HttpManager.accumulate rt chunks)).getD
          (JsVal.str (HttpManager.accumulate rt chunks)))
      else
        .error (JsError.mk ("Request failed with status " ++ toString statusCode ++ ": " ++
          HttpManager.accumulate rt chunks)) := by
  unfold HttpManager.makeFileUploadRequest
  simp only [hsent, h]
  by_cases hs : 200 ≤ statusCode ∧ statusCode < 300
  · simp only [hs, and_self, if_true]
    cases rt.jsonParse (HttpManager.accumulate rt chunks) <;> rfl
  · simp only [hs, if_false]

/-- C1 (as amended): for every status code and every sequence of body chunks of
a response, `makeRequest` and `makeFileUploadRequest` resolve exactly when
`200 ≤ statusCode < 300`. The text they work on is the concatenation of the
chunks, each converted to a string on its own; it is the converted body when the
body arrives as a single chunk. On success they resolve with that text parsed as
JSON, or with the text itself when it does not parse; otherwise they reject with
an error whose message holds the status code and that text. -/
theorem C1_status_code_decides_outcome {σ : Type} (rt : Runtime σ) (options : RequestOptions)
    (postData : Option JsVal) (now : Nat) (files : List (String × String))
    (module : HttpModule) (w : World σ) (sent : Sent) (statusCode : Int)
    (chunks : List (List UInt8))
    (hreq : (rt.exchange (Sent.mk module options (Payload.ofPostData postData)) w.remote).1 =
      NetResult.response statusCode chunks)
    (hsent : HttpManager.uploadRequest rt.readFileSync now options files module = .ok sent)
    (hup : (rt.exchange sent w.remote).1 = NetResult.response statusCode chunks) :
    (HttpManager.accumulate rt chunks = String.join (chunks.map rt.bufferToString) ∧
      ∀ body, chunks = [body] → HttpManager.accumulate rt chunks = rt.bufferToString body) ∧
    (((∃ v, (HttpManager.makeRequest rt options postData module w).1 = .ok v) ↔
        (200 ≤ statusCode ∧ statusCode < 300)) ∧
      ((∃ v, (HttpManager.makeFileUploadRequest rt now options files module w).1 = .ok v) ↔
        (200 ≤ statusCode ∧ statusCode < 300))) ∧
    ((200 ≤ statusCode ∧ statusCode < 300) →
      (HttpManager.makeRequest rt options postData module w).1 =
        .ok ((rt.jsonParse (HttpManager.accumulate rt chunks)).getD
          (JsVal.str (HttpManager.accumulate rt chunks))) ∧
      (HttpManager.makeFileUploadRequest rt now options files module w).1 =
        .ok ((rt.jsonParse (HttpManager.accumulate rt chunks)).getD
          (JsVal.str (HttpManager.accumulate rt chunks)))) ∧
    (¬ (200 ≤ statusCode ∧ statusCode < 300) →
      (HttpManager.makeRequest rt options postData module w).1 =
        .error (JsError.mk ("Request failed with status " ++ toString statusCode ++ ": " ++
          HttpManager.accumulate rt chunks)) ∧
      (HttpManager.makeFileUploadRequest rt now options files module w).1 =
        .error (JsError.mk ("Request failed with status " ++ toString statusCode ++ ": " ++
          HttpManager.accumulate rt chunks))) := by
  have h1 := makeRequest_of_response rt options postData module w statusCode chunks hreq
  have h2 := makeFileUploadRequest_of_response rt now options files module w sent statusCode
    chunks hsent hup
  refine ⟨⟨accumulate_eq_join rt chunks, fun body hb => hb ▸ accumulate_single rt body⟩, ?_⟩
  by_cases hs : 200 ≤ statusCode ∧ statusCode < 300
  · rw [if_pos hs] at h1 h2
    refine ⟨⟨⟨fun _ => hs, fun _ => ⟨_, h1⟩⟩, ⟨fun _ => hs, fun _ => ⟨_, h2⟩⟩⟩,
      fun _ => ⟨h1, h2⟩, fun hn => absurd hs hn⟩
  · rw [if_neg hs] at h1 h2
    refine ⟨⟨⟨?_, fun hp => absurd hp hs⟩, ⟨?_, fun hp => absurd hp hs⟩⟩,
      fun hp => absurd hp hs, fun _ => ⟨h1, h2⟩⟩
    · rintro ⟨v, hv⟩
      rw [h1] at hv
      cases hv
    · rintro ⟨v, hv⟩
      rw [h2] at hv
      cases hv

/-- Witness for C1 at status 299 with the body `[]`. -/
theorem C1_status_code_decides_outcome_witness :
    (HttpManager.makeRequest (fixedRuntime 299 "[]") exampleOptions none HttpModule.https
        World.start).1 = .ok (JsVal.arr []) ∧
      (HttpManager.makeFileUploadRequest (fixedRuntime 299 "[]") 0 exampleOptions
        [("certificate", "a.crt")] HttpModule.https World.start).1 = .ok (JsVal.arr []) :=
  (C1_status_code_decides_outcome (fixedRuntime 299 "[]") exampleOptions none 0
    [("certificate", "a.crt")] HttpModule.https World.start _ 299 [utf8 "[]"] rfl rfl
    rfl).2.2.1 (by decide)

/-- Counterexample to C1 as stated: the body is the JSON text of the string `é`,
and it arrives in two chunks that split the two bytes of `é`. The body parses as
JSON, but the call resolves with neither the parsed body nor the body text: each
half of the split character has become U+FFFD. -/
theorem C1_body_split_inside_a_character :
    (splitRuntime.exchange (Sent.mk HttpModule.https exampleOptions Payload.empty) ()).1 =
      NetResult.response 200 [[0x22, 0xC3], [0xA9, 0x22]] ∧
    splitRuntime.bufferToString ([[0x22, 0xC3], [0xA9, 0x22]].flatten) = "\"é\"" ∧
    splitRuntime.jsonParse "\"é\"" = some (JsVal.str "é") ∧
    (HttpManager.makeRequest splitRuntime exampleOptions none HttpModule.https
      World.start).1 = .ok (JsVal.str "\"��\"") ∧
    (HttpManager.makeFileUploadRequest splitRuntime 0 exampleOptions
      [("certificate", "a.crt")] HttpModule.https World.start).1 =
        .ok (JsVal.str "\"��\"") ∧
    JsVal.str "\"��\"" ≠ JsVal.str "é" ∧
    JsVal.str "\"��\"" ≠ JsVal.str "\"é\"" := by
  refine ⟨rfl, by decide, rfl, rfl, rfl, ?_, ?_⟩
  · intro h
    injection h with h
    revert h
    decide
  · intro h
    injection h with h
    revert h
    decide

/-! ### Multipart body: chunks and content length -/

theorem length_utf8 (s : String) : (utf8 s).length = s.utf8ByteSize := by
  rw [← String.size_toUTF8]
  rfl

theorem Chunk.length_bytes (c : Chunk) : c.bytes.length = c.byteLength := by
  cases c with
  | str s => exact length_utf8 s
  | buf b => rfl

theorem foldl_byteLength (chunks : List Chunk) (acc : Nat) :
    chunks.foldl (fun acc chunk => acc + chunk.byteLength) acc =
      acc + (writtenBytes chunks).length := by
  induction chunks generalizing acc with
  | nil => simp [writtenBytes]
  | cons c cs ih =>
    simp only [List.foldl_cons, ih, writtenBytes, List.flatMap_cons, List.length_append,
      Chunk.length_bytes]
    omega

theorem contentLength_eq_length (chunks : List Chunk) :
    HttpManager.contentLength chunks = (writtenBytes chunks).length := by
  unfold HttpManager.contentLength
  rw [foldl_byteLength]
  omega

theorem pushFiles_readable (readFileSync : String → Except JsError (List UInt8))
    (boundary : String) (parts : List Part) (h : Readable readFileSync parts)
    (chunks : List Chunk) :
    HttpManager.pushFiles readFileSync boundary (parts.map Part.entry) chunks =
      .ok (chunks ++ parts.flatMap (partChunks boundary)) := by
  induction parts generalizing chunks with
  | nil => simp [HttpManager.pushFiles]
  | cons p ps ih =>
    have hp : readFileSync p.filePath = .ok p.fileContent := h p (List.mem_cons_self _ _)
    have hps : Readable readFileSync ps := fun q hq => h q (List.mem_cons_of_mem _ hq)
    simp only [List.map_cons, Part.entry, HttpManager.pushFiles, hp]
    rw [ih hps]
    simp [partChunks, List.flatMap_cons, List.append_assoc]

theorem buildChunks_readable (readFileSync : String → Except JsError (List UInt8))
    (boundary : String) (parts : List Part) (h : Readable readFileSync parts) :
    HttpManager.buildChunks readFileSync boundary (parts.map Part.entry) =
      .ok (parts.flatMap (partChunks boundary) ++
        [Chunk.str ("--" ++ boundary ++ "--\r\n")]) := by
  unfold HttpManager.buildChunks
  rw [pushFiles_readable readFileSync boundary parts h []]
  simp

theorem lookup_setKey (key : String) (value : JsVal) (fields : List (String × JsVal)) :
    (setKey key value fields).lookup key = some value := by
  induction fields with
  | nil => simp [setKey, List.lookup]
  | cons kv rest ih =>
    obtain ⟨k, v⟩ := kv
    by_cases hk : k = key
    · simp [setKey, hk, List.lookup]
    · have hne : (key == k) = false := by
        simp only [beq_eq_false_iff_ne, ne_eq]
        exact fun hh => hk hh.symm
      simp [setKey, hk, List.lookup, hne, ih]

theorem uploadRequest_readable (readFileSync : String → Except JsError (List UInt8))
    (now : Nat) (options : RequestOptions) (parts : List Part) (module : HttpModule)
    (h : Readable readFileSync parts) :
    HttpManager.uploadRequest readFileSync now options (parts.map Part.entry) module =
      .ok { module := module,
            options := { options with
              headers := setKey "Content-Length"
                (JsVal.num (HttpManager.contentLength
                  (parts.flatMap (partChunks (HttpManager.boundary now)) ++
                    [Chunk.str ("--" ++ HttpManager.boundary now ++ "--\r\n")])))
                (setKey "Content-Type"
                  (JsVal.str ("multipart/form-data; boundary=" ++ HttpManager.boundary now))
                  options.headers) },
            body := Payload.chunks
              (parts.flatMap (partChunks (HttpManager.boundary now)) ++
                [Chunk.str ("--" ++ HttpManager.boundary now ++ "--\r\n")]) } := by
  unfold HttpManager.uploadRequest
  simp only [buildChunks_readable readFileSync (HttpManager.boundary now) parts h]

/-- C2: when every file of the parts can be read, `makeFileUploadRequest` builds
a request whose `Content-Length` header is the number of bytes that writing all
chunks puts on the wire, strings counted in UTF-8 bytes and file contents in raw
bytes. -/
theorem C2_content_length_is_body_size (readFileSync : String → Except JsError (List UInt8))
    (now : Nat) (options : RequestOptions) (parts : List Part) (module : HttpModule)
    (h : Readable readFileSync parts) :
    ∃ sent chunks,
      HttpManager.uploadRequest readFileSync now options (parts.map Part.entry) module =
        .ok sent ∧
      sent.body = Payload.chunks chunks ∧
      sent.options.headers.lookup "Content-Length" =
        some (JsVal.num ((writtenBytes chunks).length : Nat)) := by
  refine ⟨_, _, uploadRequest_readable readFileSync now options parts module h, rfl, ?_⟩
  simp only [lookup_setKey, contentLength_eq_length]

/-- Witness for C2 with a non-ASCII field name. -/
theorem C2_content_length_is_body_size_witness :
    ∃ sent chunks,
      HttpManager.uploadRequest (fixedRuntime 200 "").readFileSync 7 exampleOptions
        [("clé", "a.crt")] HttpModule.https = .ok sent ∧
      sent.body = Payload.chunks chunks ∧
      sent.options.headers.lookup "Content-Length" =
        some (JsVal.num ((writtenBytes chunks).length : Nat)) :=
  C2_content_length_is_body_size (fixedRuntime 200 "").readFileSync 7 exampleOptions
    [{ fieldName := "clé", filePath := "a.crt", fileContent := [104, 105] }]
    HttpModule.https
    (by
      intro p hp
      rw [List.mem_singleton] at hp
      subst hp
      rfl)


/-! ### Multipart body: decoding -/

set_option maxRecDepth 100000

theorem utf8_eq_flatMap (s : String) : utf8 s = s.data.flatMap String.utf8EncodeChar := rfl

theorem utf8_append (s t : String) : utf8 (s ++ t) = utf8 s ++ utf8 t := by
  simp [utf8_eq_flatMap, String.data_append, List.flatMap_append]

theorem expect_append (pat rest : List UInt8) : expect pat (pat ++ rest) = some rest := by
  unfold expect
  have h : pat.isPrefixOf (pat ++ rest) = true :=
    List.isPrefixOf_iff_prefix.mpr (List.prefix_append pat rest)
  simp [h]

theorem isPrefixOf_false_of_head (a b : UInt8) (p q : List UInt8) (h : a ≠ b) :
    (a :: p).isPrefixOf (b :: q) = false := by
  simp [List.isPrefixOf, h]

theorem splitAtFirst_append (a : UInt8) (pat c r : List UInt8) (ha : a ∉ pat)
    (hc : ¬ (a :: pat) <:+: c) :
    splitAtFirst (a :: pat) (c ++ (a :: pat) ++ r) = some (c, r) := by
  induction c with
  | nil =>
    have h : (a :: pat).isPrefixOf (a :: (pat ++ r)) = true :=
      List.isPrefixOf_iff_prefix.mpr (List.prefix_append (a :: pat) r)
    simp only [List.nil_append, List.cons_append, splitAtFirst, h, if_true]
    simp
  | cons x c ih =>
    have hc2 : ¬ (a :: pat) <:+: c := fun hh => hc (hh.trans (List.infix_cons (List.infix_refl c)))
    have hnot : (a :: pat).isPrefixOf (x :: (c ++ (a :: pat) ++ r)) = false := by
      rw [Bool.eq_false_iff]
      intro hpre
      have hpre2 : (a :: pat) <+: (x :: c) ++ ((a :: pat) ++ r) := by
        have := List.isPrefixOf_iff_prefix.mp hpre
        simpa [List.append_assoc] using this
      have hxc : (x :: c) <+: (x :: c) ++ ((a :: pat) ++ r) := List.prefix_append _ _
      rcases Nat.le_total (a :: pat).length (x :: c).length with hle | hle
      · exact hc (List.prefix_of_prefix_length_le hpre2 hxc hle).isInfix
      · obtain ⟨t, ht⟩ := List.prefix_of_prefix_length_le hxc hpre2 hle
        nth_rewrite 1 [← ht] at hpre2
        have ht2 : t <+: (a :: pat) ++ r := (List.prefix_append_right_inj (x :: c)).mp hpre2
        cases t with
        | nil =>
          apply hc
          rw [List.append_nil] at ht
          rw [← ht]
        | cons y t =>
          have hy : y = a := by
            obtain ⟨u, hu⟩ := ht2
            simp only [List.cons_append, List.cons.injEq] at hu
            exact hu.1
          subst hy
          simp only [List.cons_append, List.cons.injEq] at ht
          apply ha
          rw [← ht.2]
          simp
    simp only [List.cons_append] at hnot ⊢
    simp only [splitAtFirst, hnot]
    simp only [List.cons_append] at ih
    rw [ih hc2]
    simp



set_option maxRecDepth 100000 in
theorem byte_or_ne_aux : ∀ n : Fin 256,
    (UInt8.mk (BitVec.ofFin n)) ||| 0x80 ≠ 34 ∧ (UInt8.mk (BitVec.ofFin n)) ||| 0xc0 ≠ 34 ∧
    (UInt8.mk (BitVec.ofFin n)) ||| 0xe0 ≠ 34 ∧ (UInt8.mk (BitVec.ofFin n)) ||| 0xf0 ≠ 34 := by
  decide

theorem byte_or_ne (x : UInt8) :
    x ||| 0x80 ≠ 34 ∧ x ||| 0xc0 ≠ 34 ∧ x ||| 0xe0 ≠ 34 ∧ x ||| 0xf0 ≠ 34 := 
  byte_or_ne_aux x.toBitVec.toFin


theorem mem_utf8EncodeChar_quote (c : Char) (h : (34 : UInt8) ∈ String.utf8EncodeChar c) :
    c = '"' := by
  unfold String.utf8EncodeChar at h
  simp only at h
  have hb := fun x => byte_or_ne x
  split at h
  · rename_i hle
    simp only [List.mem_singleton] at h
    have h1 : (34 : UInt8).toNat = c.val.toUInt8.toNat := congrArg UInt8.toNat h
    have h2 : c.val.toNat ≤ 127 := hle
    have h3 : c.val.toUInt8.toNat = c.val.toNat :=
      UInt8.toNat_ofNat_of_lt (by show c.val.toNat < 256; omega)
    have h4 : c.val.toNat = 34 := by
      have : (34 : UInt8).toNat = 34 := by decide
      omega
    apply Char.ext
    apply UInt32.ext
    rw [h4]
    rfl
  · split at h
    · simp only [List.mem_cons, List.mem_singleton, List.not_mem_nil, or_false] at h
      rcases h with h | h
      · exact absurd h.symm (hb _).2.1
      · exact absurd h.symm (hb _).1
    · split at h
      · simp only [List.mem_cons, List.mem_singleton, List.not_mem_nil, or_false] at h
        rcases h with h | h | h
        · exact absurd h.symm (hb _).2.2.1
        · exact absurd h.symm (hb _).1
        · exact absurd h.symm (hb _).1
      · simp only [List.mem_cons, List.mem_singleton, List.not_mem_nil, or_false] at h
        rcases h with h | h | h | h
        · exact absurd h.symm (hb _).2.2.2
        · exact absurd h.symm (hb _).1
        · exact absurd h.symm (hb _).1
        · exact absurd h.symm (hb _).1

theorem no_cr_ite (p : Prop) [Decidable p] (a b : Char)
    (ha : (13 : UInt8) ∉ String.utf8EncodeChar a)
    (hb : (13 : UInt8) ∉ String.utf8EncodeChar b) :
    (13 : UInt8) ∉ String.utf8EncodeChar (if p then a else b) := by
  split <;> assumption

theorem digitChar_no_cr (m : Nat) : (13 : UInt8) ∉ String.utf8EncodeChar (Nat.digitChar m) := by
  unfold Nat.digitChar
  repeat (first | decide | apply no_cr_ite)

theorem toDigitsCore_no_cr (fuel n : Nat) (ds : List Char)
    (h : ∀ c ∈ ds, (13 : UInt8) ∉ String.utf8EncodeChar c) :
    ∀ c ∈ Nat.toDigitsCore 16 fuel n ds, (13 : UInt8) ∉ String.utf8EncodeChar c := by
  induction fuel generalizing n ds with
  | zero => simpa [Nat.toDigitsCore] using h
  | succ fuel ih =>
    have hd : ∀ c ∈ Nat.digitChar (n % 16) :: ds, (13 : UInt8) ∉ String.utf8EncodeChar c := by
      intro c hc
      rcases List.mem_cons.mp hc with hc | hc
      · rw [hc]
        exact digitChar_no_cr _
      · exact h c hc
    unfold Nat.toDigitsCore
    simp only
    split
    · exact hd
    · exact ih _ _ hd

theorem utf8_toHex_no_cr (n : Nat) : (13 : UInt8) ∉ utf8 (toHex n) := by
  intro h
  rw [utf8_eq_flatMap] at h
  obtain ⟨c, hc, hm⟩ := List.mem_flatMap.mp h
  exact toDigitsCore_no_cr (n + 1) n [] (by simp) c hc hm

theorem splitAtFirst_quote (c r : List UInt8) (hc : (34 : UInt8) ∉ c) :
    splitAtFirst (utf8 "\"") (c ++ (utf8 "\"" ++ r)) = some (c, r) := by
  have hq : utf8 "\"" = [34] := by decide
  rw [hq]
  have h := splitAtFirst_append 34 [] c r (by simp)
    (fun hh => hc (hh.subset (List.mem_singleton_self _)))
  simpa [List.append_assoc] using h

theorem utf8_delimiter (boundary : String) :
    utf8 ("\r\n--" ++ boundary) = 13 :: ([10, 45, 45] ++ utf8 boundary) := by
  rw [utf8_append]
  have h : utf8 "\r\n--" = [13, 10, 45, 45] := by decide
  rw [h]
  rfl

theorem utf8_boundary_no_cr (now : Nat) : (13 : UInt8) ∉ utf8 (HttpManager.boundary now) := by
  unfold HttpManager.boundary
  rw [utf8_append]
  intro h
  rcases List.mem_append.mp h with h | h
  · revert h
    decide
  · exact utf8_toHex_no_cr now h

theorem splitAtFirst_delimiter (now : Nat) (c r : List UInt8)
    (hc : ¬ utf8 ("\r\n--" ++ HttpManager.boundary now) <:+: c) :
    splitAtFirst (utf8 ("\r\n--" ++ HttpManager.boundary now))
      (c ++ (utf8 ("\r\n--" ++ HttpManager.boundary now) ++ r)) = some (c, r) := by
  rw [utf8_delimiter] at hc ⊢
  have hno : (13 : UInt8) ∉ [10, 45, 45] ++ utf8 (HttpManager.boundary now) := by
    intro h
    rcases List.mem_append.mp h with h | h
    · revert h
      decide
    · exact utf8_boundary_no_cr now h
  have h := splitAtFirst_append 13 _ c r hno hc
  simpa [List.append_assoc] using h

set_option maxRecDepth 100000 in
theorem byte_or_ge_aux : ∀ n : Fin 256,
    128 ≤ ((UInt8.mk (BitVec.ofFin n)) ||| 0x80).toNat ∧
    128 ≤ ((UInt8.mk (BitVec.ofFin n)) ||| 0xc0).toNat ∧
    128 ≤ ((UInt8.mk (BitVec.ofFin n)) ||| 0xe0).toNat ∧
    128 ≤ ((UInt8.mk (BitVec.ofFin n)) ||| 0xf0).toNat := by
  decide

theorem byte_or_ge (x : UInt8) :
    128 ≤ (x ||| 0x80).toNat ∧ 128 ≤ (x ||| 0xc0).toNat ∧ 128 ≤ (x ||| 0xe0).toNat ∧
      128 ≤ (x ||| 0xf0).toNat :=
  byte_or_ge_aux x.toBitVec.toFin

theorem mem_utf8EncodeChar_ascii (c : Char) (b : UInt8) (hb : b.toNat < 128)
    (h : b ∈ String.utf8EncodeChar c) : c.val.toNat = b.toNat := by
  unfold String.utf8EncodeChar at h
  simp only at h
  have hg := fun x => byte_or_ge x
  split at h
  · rename_i hle
    simp only [List.mem_singleton] at h
    have h2 : c.val.toNat ≤ 127 := hle
    have h3 : c.val.toUInt8.toNat = c.val.toNat :=
      UInt8.toNat_ofNat_of_lt (by show c.val.toNat < 256; omega)
    rw [h, h3]
  · split at h
    · simp only [List.mem_cons, List.mem_singleton, List.not_mem_nil, or_false] at h
      rcases h with h | h
      · have := (hg ((c.val >>> 6).toUInt8 &&& 31)).2.1
        rw [← h] at this
        omega
      · have := (hg (c.val.toUInt8 &&& 63)).1
        rw [← h] at this
        omega
    · split at h
      · simp only [List.mem_cons, List.mem_singleton, List.not_mem_nil, or_false] at h
        rcases h with h | h | h
        · have := (hg ((c.val >>> 12).toUInt8 &&& 15)).2.2.1
          rw [← h] at this
          omega
        · have := (hg ((c.val >>> 6).toUInt8 &&& 63)).1
          rw [← h] at this
          omega
        · have := (hg (c.val.toUInt8 &&& 63)).1
          rw [← h] at this
          omega
      · simp only [List.mem_cons, List.mem_singleton, List.not_mem_nil, or_false] at h
        rcases h with h | h | h | h
        · have := (hg ((c.val >>> 18).toUInt8 &&& 7)).2.2.2
          rw [← h] at this
          omega
        · have := (hg ((c.val >>> 12).toUInt8 &&& 63)).1
          rw [← h] at this
          omega
        · have := (hg ((c.val >>> 6).toUInt8 &&& 63)).1
          rw [← h] at this
          omega
        · have := (hg (c.val.toUInt8 &&& 63)).1
          rw [← h] at this
          omega

theorem char_eq_of_toNat (c : Char) (n : Nat) (hn : n < 128) (h : c.val.toNat = n) :
    c = Char.ofNat n := by
  apply Char.ext
  apply UInt32.ext
  rw [h]
  have hv : n.isValidChar := Or.inl (by omega)
  simp only [Char.ofNat, hv, dif_pos, Char.ofNatAux]
  rfl

theorem PlainName.bytes (name : String) (h : PlainName name) :
    (34 : UInt8) ∉ utf8 name ∧ (92 : UInt8) ∉ utf8 name ∧ (13 : UInt8) ∉ utf8 name ∧
      (10 : UInt8) ∉ utf8 name := by
  have key : ∀ (b : UInt8) (n : Nat), b.toNat = n → n < 128 → b ∈ utf8 name →
      Char.ofNat n ∈ name.data := by
    intro b n hbn hn hmem
    rw [utf8_eq_flatMap] at hmem
    obtain ⟨c, hc, hm⟩ := List.mem_flatMap.mp hmem
    have := mem_utf8EncodeChar_ascii c b (by omega) hm
    rw [← char_eq_of_toNat c n hn (by omega)]
    exact hc
  refine ⟨fun hm => ?_, fun hm => ?_, fun hm => ?_, fun hm => ?_⟩
  · exact (h _ (key 34 34 rfl (by decide) hm)).1 rfl
  · exact (h _ (key 92 92 rfl (by decide) hm)).2.1 rfl
  · exact (h _ (key 13 13 rfl (by decide) hm)).2.2.1 rfl
  · exact (h _ (key 10 10 rfl (by decide) hm)).2.2.2 rfl

theorem quote_mem_of_mem_utf8 (s : String) (h : (34 : UInt8) ∈ utf8 s) : '"' ∈ s.data := by
  rw [utf8_eq_flatMap] at h
  obtain ⟨c, hc, hm⟩ := List.mem_flatMap.mp h
  rw [← mem_utf8EncodeChar_quote c hm]
  exact hc

theorem writtenBytes_append (xs ys : List Chunk) :
    writtenBytes (xs ++ ys) = writtenBytes xs ++ writtenBytes ys := by
  simp [writtenBytes, List.flatMap_append]

theorem writtenBytes_partChunks (boundary : String) (p : Part) :
    writtenBytes (partChunks boundary p) =
      utf8 ("--" ++ boundary ++ "\r\n") ++
        (utf8 ("Content-Disposition: form-data; name=\"" ++ p.fieldName ++
            "\"; filename=\"" ++ p.filePath ++ "\"\r\n") ++
          (utf8 "Content-Type: application/octet-stream\r\n\r\n" ++
            (p.fileContent ++ utf8 "\r\n"))) := by
  simp [writtenBytes, partChunks, Chunk.bytes, List.flatMap_cons]

theorem infix_of_append_ne (a : UInt8) (pat : List UInt8) (skipped rest : List UInt8)
    (hne : a ∉ skipped) (h : (a :: pat) <:+: skipped ++ rest) : (a :: pat) <:+: rest := by
  induction skipped with
  | nil => simpa using h
  | cons x xs ih =>
    rw [List.cons_append, List.infix_cons_iff] at h
    rcases h with h | h
    · obtain ⟨t, ht⟩ := h
      simp only [List.cons_append, List.cons.injEq] at ht
      exact absurd (List.mem_cons_self a xs) (ht.1 ▸ hne)
    · exact ih (fun hm => hne (List.mem_cons_of_mem _ hm)) h

theorem infix_after_line_end (pat : List UInt8) (c : UInt8) (rest : List UInt8)
    (hc : c ≠ 45) (h : (13 :: 10 :: 45 :: pat) <:+: utf8 "\r\n" ++ (c :: rest)) :
    (13 :: 10 :: 45 :: pat) <:+: c :: rest := by
  have hcrlf : utf8 "\r\n" = [13, 10] := by decide
  rw [hcrlf] at h
  simp only [List.cons_append, List.nil_append] at h
  rw [List.infix_cons_iff] at h
  rcases h with h | h
  · obtain ⟨t, ht⟩ := h
    simp only [List.cons_append, List.cons.injEq] at ht
    exact absurd ht.2.2.1.symm hc
  · rw [List.infix_cons_iff] at h
    rcases h with h | h
    · obtain ⟨t, ht⟩ := h
      simp only [List.cons_append, List.cons.injEq] at ht
      exact absurd ht.1 (by decide)
    · exact h

theorem readQuoted_plain (text after : List UInt8) (hq : (34 : UInt8) ∉ text)
    (hb : (92 : UInt8) ∉ text) :
    readQuoted (text ++ (utf8 "\"" ++ after)) = some (text, after) := by
  have hquote : utf8 "\"" = [34] := by decide
  rw [hquote]
  induction text with
  | nil =>
    cases after with
    | nil => simp [readQuoted]
    | cons c rest => simp [readQuoted]
  | cons x xs ih =>
    have hx34 : x ≠ 34 := fun h => hq (h ▸ List.mem_cons_self _ _)
    have hx92 : x ≠ 92 := fun h => hb (h ▸ List.mem_cons_self _ _)
    have ih2 := ih (fun hm => hq (List.mem_cons_of_mem _ hm))
      (fun hm => hb (List.mem_cons_of_mem _ hm))
    cases hxs : xs ++ ([34] ++ after) with
    | nil => simp at hxs
    | cons c rest =>
      rw [hxs] at ih2
      rw [List.cons_append, hxs]
      simp only [readQuoted, hx34, hx92, if_false, ih2]

theorem expect_none_of_head (a b : UInt8) (pat input : List UInt8) (h : a ≠ b) :
    expect (a :: pat) (b :: input) = none := by
  simp [expect, List.isPrefixOf, h]

theorem splitAtFirst_line_end (line rest : List UInt8) (h : (13 : UInt8) ∉ line) :
    splitAtFirst (utf8 "\r\n") (line ++ (utf8 "\r\n" ++ rest)) = some (line, rest) := by
  have hcrlf : utf8 "\r\n" = [13, 10] := by decide
  rw [hcrlf]
  have := splitAtFirst_append 13 [10] line rest (by decide)
    (fun hh => h (hh.subset (List.mem_cons_self _ _)))
  simpa [List.append_assoc] using this

theorem dispositionLine_plain (p : Part) (hname : PlainName p.fieldName)
    (hpath : PlainName p.filePath) :
    (13 : UInt8) ∉ dispositionLine p ∧ (10 : UInt8) ∉ dispositionLine p := by
  have hn := PlainName.bytes _ hname
  have hp := PlainName.bytes _ hpath
  have h1 : (13 : UInt8) ∉ utf8 "Content-Disposition: form-data; name=\"" ∧
      (10 : UInt8) ∉ utf8 "Content-Disposition: form-data; name=\"" := by decide
  have h2 : (13 : UInt8) ∉ utf8 "\"" ∧ (10 : UInt8) ∉ utf8 "\"" := by decide
  have h3 : (13 : UInt8) ∉ utf8 "; filename=\"" ∧ (10 : UInt8) ∉ utf8 "; filename=\"" := by
    decide
  unfold dispositionLine
  simp only [List.mem_append, not_or]
  exact ⟨⟨h1.1, hn.2.2.1, h2.1, h3.1, hp.2.2.1, h2.1⟩, ⟨h1.2, hn.2.2.2, h2.2, h3.2, hp.2.2.2, h2.2⟩⟩

theorem parseDisposition_line (p : Part) (hname : PlainName p.fieldName)
    (hpath : PlainName p.filePath) :
    parseDisposition (dispositionLine p) = some (utf8 p.fieldName, utf8 p.filePath) := by
  have hn := PlainName.bytes _ hname
  have hp := PlainName.bytes _ hpath
  have hlast : utf8 p.filePath ++ utf8 "\"" = utf8 p.filePath ++ (utf8 "\"" ++ []) := by
    simp
  unfold parseDisposition dispositionLine
  simp only [expect_append, readQuoted_plain _ _ hn.1 hn.2.1, hlast,
    readQuoted_plain _ _ hp.1 hp.2.1, if_true]

theorem skipHeaders_content (fuel : Nat) (content : List UInt8) :
    skipHeaders (fuel + 2)
      (utf8 "Content-Type: application/octet-stream" ++
        (utf8 "\r\n" ++ (utf8 "\r\n" ++ content))) = some content := by
  have hhead : utf8 "Content-Type: application/octet-stream" =
      67 :: utf8 "ontent-Type: application/octet-stream" := by decide
  have hcrlf : utf8 "\r\n" = [13, 10] := by decide
  have hno : (13 : UInt8) ∉ utf8 "Content-Type: application/octet-stream" := by decide
  have h1 : expect (utf8 "\r\n")
      (utf8 "Content-Type: application/octet-stream" ++
        (utf8 "\r\n" ++ (utf8 "\r\n" ++ content))) = none := by
    rw [hhead, hcrlf]
    exact expect_none_of_head 13 67 _ _ (by decide)
  simp only [skipHeaders, h1, splitAtFirst_line_end _ _ hno, expect_append]

theorem decodePart_partText (p : Part) (hname : PlainName p.fieldName)
    (hpath : PlainName p.filePath) : decodePart (partText p) = some p.decoded := by
  have hline := dispositionLine_plain p hname hpath
  have hc13 : (dispositionLine p).contains 13 = false := by
    rw [Bool.eq_false_iff]
    intro h
    exact hline.1 (by simpa using h)
  have hc10 : (dispositionLine p).contains 10 = false := by
    rw [Bool.eq_false_iff]
    intro h
    exact hline.2 (by simpa using h)
  have hfuel : ∃ f, (utf8 "Content-Type: application/octet-stream" ++
      (utf8 "\r\n" ++ (utf8 "\r\n" ++ p.fileContent))).length + 1 = f + 2 := by
    have hl : (utf8 "Content-Type: application/octet-stream").length = 38 := by decide
    refine ⟨(utf8 "Content-Type: application/octet-stream" ++
      (utf8 "\r\n" ++ (utf8 "\r\n" ++ p.fileContent))).length - 1, ?_⟩
    rw [List.length_append, hl]
    omega
  obtain ⟨f, hf⟩ := hfuel
  unfold decodePart partText
  simp only [splitAtFirst_line_end _ _ hline.1, hc13, hc10, Bool.or_self, Bool.false_eq_true,
    if_false, parseDisposition_line p hname hpath, hf, skipHeaders_content]
  rfl

theorem delimiter_not_in_part (now : Nat) (p : Part) (hname : PlainName p.fieldName)
    (hpath : PlainName p.filePath)
    (hcontent : FreeOfDelimiter (HttpManager.boundary now) p.fileContent) :
    ¬ utf8 ("\r\n--" ++ HttpManager.boundary now) <:+: utf8 "\r\n" ++ partText p := by
  have hn := (PlainName.bytes _ hname).2.2.1
  have hp := (PlainName.bytes _ hpath).2.2.1
  have hd : utf8 ("\r\n--" ++ HttpManager.boundary now) =
      13 :: 10 :: 45 :: (45 :: utf8 (HttpManager.boundary now)) := by
    rw [utf8_delimiter]
    rfl
  have hcd : utf8 "Content-Disposition: form-data; name=\"" =
      67 :: utf8 "ontent-Disposition: form-data; name=\"" := by decide
  have hcdno : (13 : UInt8) ∉ utf8 "Content-Disposition: form-data; name=\"" := by decide
  have hq : (13 : UInt8) ∉ utf8 "\"" := by decide
  have hfn : (13 : UInt8) ∉ utf8 "; filename=\"" := by decide
  have hct : utf8 "Content-Type: application/octet-stream" =
      67 :: utf8 "ontent-Type: application/octet-stream" := by decide
  have hctno : (13 : UInt8) ∉ utf8 "Content-Type: application/octet-stream" := by decide
  have hcrlf : utf8 "\r\n" ++ (utf8 "\r\n" ++ p.fileContent) =
      utf8 "\r\n" ++ (13 :: (10 :: p.fileContent)) := by
    have : utf8 "\r\n" = [13, 10] := by decide
    rw [this]
    rfl
  have hlast : (13 : UInt8) :: (10 :: p.fileContent) = utf8 "\r\n" ++ p.fileContent := by
    have : utf8 "\r\n" = [13, 10] := by decide
    rw [this]
    rfl
  intro h
  apply hcontent
  rw [hd] at h ⊢
  unfold partText dispositionLine at h
  have h1 : (13 :: 10 :: 45 :: (45 :: utf8 (HttpManager.boundary now))) <:+:
      utf8 "Content-Disposition: form-data; name=\"" ++ (utf8 p.fieldName ++
        (utf8 "\"" ++ (utf8 "; filename=\"" ++ (utf8 p.filePath ++ (utf8 "\"" ++
          (utf8 "\r\n" ++ (utf8 "Content-Type: application/octet-stream" ++
            (utf8 "\r\n" ++ (utf8 "\r\n" ++ p.fileContent))))))))) := by
    have h0 := h
    simp only [List.append_assoc] at h0
    rw [hcd, List.cons_append] at h0
    have := infix_after_line_end _ 67 _ (by decide) h0
    rw [hcd, List.cons_append]
    exact this
  have h2 := infix_of_append_ne _ _ _ _ hq
    (infix_of_append_ne _ _ _ _ hp
      (infix_of_append_ne _ _ _ _ hfn
        (infix_of_append_ne _ _ _ _ hq
          (infix_of_append_ne _ _ _ _ hn
            (infix_of_append_ne _ _ _ _ hcdno h1)))))
  rw [hct, List.cons_append] at h2
  have h3 := infix_after_line_end _ 67 _ (by decide) h2
  rw [← List.cons_append, ← hct] at h3
  have h4 := infix_of_append_ne _ _ _ _ hctno h3
  rw [hcrlf] at h4
  have h5 := infix_after_line_end _ 13 _ (by decide) h4
  rw [hlast] at h5
  exact h5

theorem splitAtFirst_part (now : Nat) (text rest : List UInt8)
    (h : ¬ utf8 ("\r\n--" ++ HttpManager.boundary now) <:+: text) :
    splitAtFirst (utf8 ("\r\n--" ++ HttpManager.boundary now))
      (text ++ (utf8 ("\r\n--" ++ HttpManager.boundary now) ++ rest)) = some (text, rest) :=
  splitAtFirst_delimiter now text rest h

theorem decodeParts_afterDelimiter (now : Nat) (parts : List Part)
    (hname : ∀ p ∈ parts, PlainName p.fieldName)
    (hpath : ∀ p ∈ parts, PlainName p.filePath)
    (hcontent : ∀ p ∈ parts, FreeOfDelimiter (HttpManager.boundary now) p.fileContent)
    (fuel : Nat) (hfuel : parts.length < fuel) :
    decodeParts (HttpManager.boundary now) fuel
      (afterDelimiter (HttpManager.boundary now) parts) = some (parts.map Part.decoded) := by
  induction parts generalizing fuel with
  | nil =>
    obtain ⟨f, rfl⟩ : ∃ f, fuel = f + 1 := ⟨fuel - 1, by simp at hfuel; omega⟩
    have h : expect (utf8 "--") (utf8 "--\r\n") = some (utf8 "\r\n") := by decide
    simp [decodeParts, afterDelimiter, h]
  | cons p ps ih =>
    obtain ⟨f, rfl⟩ : ∃ f, fuel = f + 1 := ⟨fuel - 1, by simp at hfuel; omega⟩
    have hf : ps.length < f := by simp at hfuel; omega
    have ih2 := ih (fun q hq => hname q (List.mem_cons_of_mem _ hq))
      (fun q hq => hpath q (List.mem_cons_of_mem _ hq))
      (fun q hq => hcontent q (List.mem_cons_of_mem _ hq)) f hf
    have hclose : ∀ r, expect (utf8 "--") (utf8 "\r\n" ++ r) = none := by
      intro r
      have h1 : utf8 "--" = [45, 45] := by decide
      have h2 : utf8 "\r\n" = [13, 10] := by decide
      rw [h1, h2]
      exact expect_none_of_head 45 13 _ _ (by decide)
    have hsplit := splitAtFirst_part now (utf8 "\r\n" ++ partText p)
      (afterDelimiter (HttpManager.boundary now) ps)
      (delimiter_not_in_part now p (hname p (List.mem_cons_self _ _))
        (hpath p (List.mem_cons_self _ _)) (hcontent p (List.mem_cons_self _ _)))
    have hpart := decodePart_partText p (hname p (List.mem_cons_self _ _))
      (hpath p (List.mem_cons_self _ _))
    have hshape : afterDelimiter (HttpManager.boundary now) (p :: ps) =
        utf8 "\r\n" ++ (partText p ++
          (utf8 ("\r\n--" ++ HttpManager.boundary now) ++
            afterDelimiter (HttpManager.boundary now) ps)) := by
      simp [afterDelimiter, List.append_assoc]
    have hshape2 : afterDelimiter (HttpManager.boundary now) (p :: ps) =
        (utf8 "\r\n" ++ partText p) ++
          (utf8 ("\r\n--" ++ HttpManager.boundary now) ++
            afterDelimiter (HttpManager.boundary now) ps) := rfl
    unfold decodeParts
    rw [hshape, hclose, ← hshape, hshape2, hsplit]
    simp only [expect_append, hpart, ih2, List.map_cons]

theorem writtenBytes_eq_afterDelimiter (boundary : String) (parts : List Part) :
    writtenBytes (parts.flatMap (partChunks boundary) ++
        [Chunk.str ("--" ++ boundary ++ "--\r\n")]) =
      utf8 ("--" ++ boundary) ++ afterDelimiter boundary parts := by
  induction parts with
  | nil =>
    simp [writtenBytes, Chunk.bytes, afterDelimiter, utf8_append]
  | cons p ps ih =>
    rw [List.flatMap_cons, List.append_assoc, writtenBytes_append, ih,
      writtenBytes_partChunks]
    have l2 : utf8 "\"; filename=\"" = utf8 "\"" ++ utf8 "; filename=\"" := by decide
    have l3 : utf8 "\"\r\n" = utf8 "\"" ++ utf8 "\r\n" := by decide
    have l4 : utf8 "Content-Type: application/octet-stream\r\n\r\n" =
        utf8 "Content-Type: application/octet-stream" ++ (utf8 "\r\n" ++ utf8 "\r\n") := by
      decide
    have l5 : utf8 "\r\n--" = utf8 "\r\n" ++ utf8 "--" := by decide
    simp only [afterDelimiter, partText, dispositionLine, utf8_append, l2, l3, l4, l5,
      List.append_assoc]

theorem length_afterDelimiter (boundary : String) (parts : List Part) :
    parts.length < (afterDelimiter boundary parts).length := by
  induction parts with
  | nil =>
    have h : (utf8 "--\r\n").length = 4 := by decide
    simp [afterDelimiter, h]
  | cons p ps ih =>
    have h : (utf8 "\r\n").length = 2 := by decide
    simp only [afterDelimiter, List.length_append, List.length_cons, h]
    omega

theorem decodeMultipart_body (now : Nat) (parts : List Part)
    (hname : ∀ p ∈ parts, PlainName p.fieldName)
    (hpath : ∀ p ∈ parts, PlainName p.filePath)
    (hcontent : ∀ p ∈ parts, FreeOfDelimiter (HttpManager.boundary now) p.fileContent) :
    decodeMultipart (HttpManager.boundary now)
      (writtenBytes (parts.flatMap (partChunks (HttpManager.boundary now)) ++
        [Chunk.str ("--" ++ HttpManager.boundary now ++ "--\r\n")])) =
      some (parts.map Part.decoded) := by
  rw [writtenBytes_eq_afterDelimiter]
  unfold decodeMultipart
  rw [expect_append]
  simp only
  apply decodeParts_afterDelimiter now parts hname hpath hcontent
  have := length_afterDelimiter (HttpManager.boundary now) parts
  rw [List.length_append]
  omega

/-- C3 (as amended): when no field name and no file path holds a double quote, a
backslash, a carriage return or a line feed, and no file content holds a line
end followed by `--` and the boundary or starts with `--` and the boundary, the
request is built and decoding its body with the boundary gives back, in order,
every field name, file path and file content unchanged. -/
theorem C3_round_trip_without_collision
    (readFileSync : String → Except JsError (List UInt8)) (now : Nat)
    (options : RequestOptions) (parts : List Part) (module : HttpModule)
    (hread : Readable readFileSync parts)
    (hname : ∀ p ∈ parts, PlainName p.fieldName)
    (hpath : ∀ p ∈ parts, PlainName p.filePath)
    (hcontent : ∀ p ∈ parts, FreeOfDelimiter (HttpManager.boundary now) p.fileContent) :
    RoundTrips readFileSync now options parts module := by
  refine ⟨_, _, uploadRequest_readable readFileSync now options parts module hread, rfl, ?_⟩
  exact decodeMultipart_body now parts hname hpath hcontent

/-- Witness for C3: the example part round-trips. -/
theorem C3_round_trip_without_collision_witness :
    RoundTrips (fixedRuntime 200 "").readFileSync 0 exampleOptions [examplePart]
      HttpModule.https :=
  C3_round_trip_without_collision (fixedRuntime 200 "").readFileSync 0 exampleOptions
    [examplePart] HttpModule.https
    (by
      intro p hp
      rw [List.mem_singleton] at hp
      subst hp
      rfl)
    (by
      intro p hp
      rw [List.mem_singleton] at hp
      subst hp
      unfold PlainName
      decide)
    (by
      intro p hp
      rw [List.mem_singleton] at hp
      subst hp
      unfold PlainName
      decide)
    (by
      intro p hp
      rw [List.mem_singleton] at hp
      subst hp
      unfold FreeOfDelimiter
      decide)

/-- Counterexample to C3 as stated: a file whose content holds a line end, `--`
and the boundary does not round-trip. -/
theorem C3_boundary_collides_with_content :
    ¬ RoundTrips collidingFs 0 exampleOptions [collidingPart] HttpModule.https := by
  rintro ⟨sent, chunks, h1, h2, h3⟩
  rw [uploadRequest_readable collidingFs 0 exampleOptions [collidingPart] HttpModule.https
    (by
      intro p hp
      rw [List.mem_singleton] at hp
      subst hp
      rfl)] at h1
  cases h1
  cases h2
  exact absurd h3 (by decide)

/-! ### Multipart body: layout -/

theorem writtenBytes_eq_layoutBody (boundary : String) (parts : List Part) :
    writtenBytes (parts.flatMap (partChunks boundary) ++
        [Chunk.str ("--" ++ boundary ++ "--\r\n")]) =
      layoutBody (fun path => path) boundary parts := by
  have hct : utf8 "Content-Type: application/octet-stream\r\n\r\n" =
      utf8 "Content-Type: application/octet-stream\r\n" ++ utf8 "\r\n" := by decide
  unfold layoutBody
  rw [writtenBytes_append]
  congr 1
  · induction parts with
    | nil => rfl
    | cons p ps ih =>
      rw [List.flatMap_cons, writtenBytes_append, ih, writtenBytes_partChunks, hct,
        List.flatMap_cons]
      simp only [List.append_assoc]
  · simp [writtenBytes, Chunk.bytes]

/-- C4 (as amended): for every ordered list of readable parts the body written
by `makeFileUploadRequest` is, part by part in the given order, the line
`--boundary`, the `Content-Disposition` header with the field name as `name`
and the file path as given as `filename`, the line
`Content-Type: application/octet-stream`, a blank line, the file bytes and a
line end, followed by the closing line `--boundary--` and nothing else. -/
theorem C4_body_layout_with_full_path
    (readFileSync : String → Except JsError (List UInt8)) (now : Nat)
    (options : RequestOptions) (parts : List Part) (module : HttpModule)
    (hread : Readable readFileSync parts) :
    BodyIs (fun path => path) readFileSync now options parts module :=
  ⟨_, _, uploadRequest_readable readFileSync now options parts module hread, rfl,
    writtenBytes_eq_layoutBody (HttpManager.boundary now) parts⟩

/-- Witness for C4: the part whose file lies in a directory. -/
theorem C4_body_layout_with_full_path_witness :
    BodyIs (fun path => path) nestedFs 0 exampleOptions [nestedPart] HttpModule.https :=
  C4_body_layout_with_full_path nestedFs 0 exampleOptions [nestedPart] HttpModule.https
    (by
      intro p hp
      rw [List.mem_singleton] at hp
      subst hp
      rfl)

/-- Counterexample to C4 as stated: for the path `certs/a.crt` the body does
not carry the base name `a.crt` as file name. -/
theorem C4_filename_is_not_base_name :
    ¬ BodyIs basename nestedFs 0 exampleOptions [nestedPart] HttpModule.https := by
  rintro ⟨sent, chunks, h1, h2, h3⟩
  rw [uploadRequest_readable nestedFs 0 exampleOptions [nestedPart] HttpModule.https
    (by
      intro p hp
      rw [List.mem_singleton] at hp
      subst hp
      rfl)] at h1
  cases h1
  cases h2
  exact absurd h3 (by decide)

/-! ### Request options: the port -/

/-- C5 (evaluation at the failing input): against `https://npm.local`, which has
no explicit port, the token request carries port 443, while the validation,
listing, creation and upload requests carry the empty string as port. -/
theorem C5_port_defaulted_only_for_token_request :
    (CertificateManager.authenticateNPM
        (scriptedRuntime "[]" (JsVal.arr []) "created" (JsVal.obj [("token", JsVal.str "t")]))
        exampleConfig World.start).2.trace =
      [("POST", "/api/tokens", JsVal.num 443)] ∧
    (CertificateManager.uploadCertificateToNPM
        (scriptedRuntime "[]" (JsVal.arr []) "created" (JsVal.obj [("id", JsVal.num 7)]))
        exampleConfig 0 1 "svc.local" exampleCertFiles (JsVal.str "t") World.start).2.trace =
      [("POST", "/api/nginx/certificates/validate", JsVal.str ""),
       ("GET", "/api/nginx/certificates", JsVal.str ""),
       ("POST", "/api/nginx/certificates", JsVal.str ""),
       ("POST", "/api/nginx/certificates/7/upload", JsVal.str "")] := by
  constructor <;> rfl

/-! ### Certificate registry: find or create -/

theorem strictEqStr_getProp_obj (domain : String) (fields : List (String × JsVal)) :
    (JsVal.obj fields).getProp "nice_name" =
        some ((fields.lookup "nice_name").getD JsVal.undefined) ∧
      ((fields.lookup "nice_name").getD JsVal.undefined).strictEqStr domain =
        isNamed domain fields := by
  refine ⟨rfl, ?_⟩
  unfold isNamed
  cases h : fields.lookup "nice_name" with
  | none => rfl
  | some v => cases v <;> rfl

theorem find_of_find?_some (domain : String) (records : List (List (String × JsVal)))
    (r : List (String × JsVal)) (h : records.find? (isNamed domain) = some r) :
    CertificateManager.find domain (records.map JsVal.obj) = .ok (JsVal.obj r) := by
  induction records with
  | nil => simp at h
  | cons x xs ih =>
    have hx := (strictEqStr_getProp_obj domain x).2
    rw [List.find?_cons] at h
    simp only [List.map_cons, CertificateManager.find, JsVal.getProp, hx]
    cases hn : isNamed domain x with
    | true =>
      rw [hn] at h
      simp only at h
      cases h
      simp
    | false =>
      rw [hn] at h
      simp only at h
      simpa using ih h

theorem find_of_find?_none (domain : String) (records : List (List (String × JsVal)))
    (h : records.find? (isNamed domain) = none) :
    CertificateManager.find domain (records.map JsVal.obj) = .ok JsVal.undefined := by
  induction records with
  | nil => rfl
  | cons x xs ih =>
    have hx := (strictEqStr_getProp_obj domain x).2
    rw [List.find?_cons] at h
    simp only [List.map_cons, CertificateManager.find, JsVal.getProp, hx]
    cases hn : isNamed domain x with
    | true =>
      rw [hn] at h
      simp at h
    | false =>
      rw [hn] at h
      simp only at h
      simpa using ih h

theorem makeRequest_sent {σ : Type} (rt : Runtime σ) (options : RequestOptions)
    (postData : Option JsVal) (module : HttpModule) (w : World σ) :
    (HttpManager.makeRequest rt options postData module w).2.sent =
      w.sent ++ [Sent.mk module options (Payload.ofPostData postData)] := by
  unfold HttpManager.makeRequest
  simp only
  split
  · rfl
  · split
    · split <;> rfl
    · rfl

theorem getOrCreate_of_found {σ : Type} (rt : Runtime σ) (config : Config)
    (domain : String) (token : JsVal) (w w1 : World σ) (apiUrl : URLRecord)
    (records : List (List (String × JsVal))) (r : List (String × JsVal))
    (hurl : rt.newURL "/api/nginx/certificates" config.npm.url = .ok apiUrl)
    (hlist : HttpManager.makeRequest rt (CertificateManager.listOptions rt apiUrl token) none
      (HttpManager.getHttpModule config.npm.url) w =
        (.ok (JsVal.arr (records.map JsVal.obj)), w1))
    (hr : records.find? (isNamed domain) = some r) :
    CertificateManager.getOrCreateCertificateId rt config domain token w =
      (.ok ((r.lookup "id").getD JsVal.undefined), w1) := by
  unfold CertificateManager.getOrCreateCertificateId
  simp only [hurl, hlist, find_of_find?_some domain records r hr, JsVal.truthy,
    JsVal.getProp, if_true]

theorem getOrCreate_of_absent {σ : Type} (rt : Runtime σ) (config : Config)
    (domain : String) (token : JsVal) (w w1 : World σ) (apiUrl : URLRecord)
    (records : List (List (String × JsVal)))
    (hurl : rt.newURL "/api/nginx/certificates" config.npm.url = .ok apiUrl)
    (hlist : HttpManager.makeRequest rt (CertificateManager.listOptions rt apiUrl token) none
      (HttpManager.getHttpModule config.npm.url) w =
        (.ok (JsVal.arr (records.map JsVal.obj)), w1))
    (hnone : records.find? (isNamed domain) = none) :
    CertificateManager.getOrCreateCertificateId rt config domain token w =
      match HttpManager.makeRequest rt (CertificateManager.createOptions rt apiUrl token)
          (some (CertificateManager.createData domain))
          (HttpManager.getHttpModule config.npm.url) w1 with
      | (.error e, w2) => (.error e, w2)
      | (.ok createResponse, w2) =>
        match createResponse.getProp "id" with
        | none => (.error (JsError.runtime "TypeError"), w2)
        | some id =>
          if !id.truthy then
            (.error (JsError.mk "Failed to create certificate entry"), w2)
          else
            (.ok id, w2) := by
  unfold CertificateManager.getOrCreateCertificateId
  simp only [hurl, hlist, find_of_find?_none domain records hnone, JsVal.truthy]
  rfl

/-- C6 (as amended): when the listing returns the records `records`, then, if
some record is filed under the domain, `getOrCreateCertificateId` returns the id
of the first such record and sends nothing after the listing `GET`; if none is,
it sends exactly one `POST` whose JSON body is `nice_name: domain` and
`provider: other`, a failure of that request is its failure, and on a response it
returns the `id` of the response exactly when that `id` is present and truthy
and fails otherwise. -/
theorem C6_find_then_create {σ : Type} (rt : Runtime σ) (config : Config) (domain : String)
    (token : JsVal) (w w1 : World σ) (apiUrl : URLRecord)
    (records : List (List (String × JsVal)))
    (hurl : rt.newURL "/api/nginx/certificates" config.npm.url = .ok apiUrl)
    (hlist : HttpManager.makeRequest rt (CertificateManager.listOptions rt apiUrl token) none
      (HttpManager.getHttpModule config.npm.url) w =
        (.ok (JsVal.arr (records.map JsVal.obj)), w1)) :
    (∀ r, records.find? (isNamed domain) = some r →
      CertificateManager.getOrCreateCertificateId rt config domain token w =
        (.ok ((r.lookup "id").getD JsVal.undefined), w1) ∧
      w1.sent = w.sent ++ [Sent.mk (HttpManager.getHttpModule config.npm.url)
        (CertificateManager.listOptions rt apiUrl token) Payload.empty]) ∧
    (records.find? (isNamed domain) = none →
      (CertificateManager.getOrCreateCertificateId rt config domain token w).2.sent =
        w.sent ++ [Sent.mk (HttpManager.getHttpModule config.npm.url)
            (CertificateManager.listOptions rt apiUrl token) Payload.empty,
          Sent.mk (HttpManager.getHttpModule config.npm.url)
            (CertificateManager.createOptions rt apiUrl token)
            (Payload.json (JsVal.obj
              [("nice_name", JsVal.str domain), ("provider", JsVal.str "other")]))] ∧
      (CertificateManager.createOptions rt apiUrl token).method = "POST" ∧
      (∀ e w2, HttpManager.makeRequest rt (CertificateManager.createOptions rt apiUrl token)
          (some (CertificateManager.createData domain))
          (HttpManager.getHttpModule config.npm.url) w1 = (.error e, w2) →
        CertificateManager.getOrCreateCertificateId rt config domain token w =
          (.error e, w2)) ∧
      (∀ createResponse w2,
        HttpManager.makeRequest rt (CertificateManager.createOptions rt apiUrl token)
          (some (CertificateManager.createData domain))
          (HttpManager.getHttpModule config.npm.url) w1 = (.ok createResponse, w2) →
        (CertificateManager.getOrCreateCertificateId rt config domain token w).2 = w2 ∧
        (∀ id, (CertificateManager.getOrCreateCertificateId rt config domain token w).1 =
            .ok id ↔
          (createResponse.getProp "id" = some id ∧ id.truthy = true)) ∧
        ((¬ ∃ id, createResponse.getProp "id" = some id ∧ id.truthy = true) →
          ∃ e, (CertificateManager.getOrCreateCertificateId rt config domain token w).1 =
            .error e))) := by
  have hsent1 : w1.sent = w.sent ++ [Sent.mk (HttpManager.getHttpModule config.npm.url)
      (CertificateManager.listOptions rt apiUrl token) Payload.empty] := by
    have h := makeRequest_sent rt (CertificateManager.listOptions rt apiUrl token) none
      (HttpManager.getHttpModule config.npm.url) w
    rw [hlist] at h
    exact h
  constructor
  · intro r hr
    exact ⟨getOrCreate_of_found rt config domain token w w1 apiUrl records r hurl hlist hr,
      hsent1⟩
  · intro hnone
    have hstep := getOrCreate_of_absent rt config domain token w w1 apiUrl records hurl hlist
      hnone
    have hsent2 := makeRequest_sent rt (CertificateManager.createOptions rt apiUrl token)
      (some (CertificateManager.createData domain))
      (HttpManager.getHttpModule config.npm.url) w1
    refine ⟨?_, rfl, ?_, ?_⟩
    · rw [hstep]
      rcases hc : HttpManager.makeRequest rt (CertificateManager.createOptions rt apiUrl token)
          (some (CertificateManager.createData domain))
          (HttpManager.getHttpModule config.npm.url) w1 with ⟨res, w2⟩
      rw [hc] at hsent2
      simp only at hsent2
      have hw2 : w2.sent = w.sent ++ [Sent.mk (HttpManager.getHttpModule config.npm.url)
            (CertificateManager.listOptions rt apiUrl token) Payload.empty,
          Sent.mk (HttpManager.getHttpModule config.npm.url)
            (CertificateManager.createOptions rt apiUrl token)
            (Payload.json (JsVal.obj
              [("nice_name", JsVal.str domain), ("provider", JsVal.str "other")]))] := by
        rw [hsent2, hsent1, List.append_assoc]
        rfl
      cases res with
      | error e => exact hw2
      | ok createResponse =>
        simp only
        cases createResponse.getProp "id" with
        | none => exact hw2
        | some id =>
          simp only
          split <;> exact hw2
    · intro e w2 hc
      rw [hstep, hc]
    · intro createResponse w2 hc
      rw [hstep, hc]
      simp only
      cases hid : createResponse.getProp "id" with
      | none =>
        refine ⟨rfl, ?_, fun _ => ⟨_, rfl⟩⟩
        intro id
        constructor
        · intro h
          cases h
        · rintro ⟨h, _⟩
          cases h
      | some v =>
        simp only
        cases hv : v.truthy with
        | true =>
          simp only [Bool.not_true, Bool.false_eq_true, if_false]
          refine ⟨trivial, ?_, fun hno => absurd ⟨v, rfl, hv⟩ hno⟩
          intro id
          constructor
          · intro h
            cases h
            exact ⟨rfl, hv⟩
          · rintro ⟨h, _⟩
            cases h
            rfl
        | false =>
          simp only [Bool.not_false, if_true]
          refine ⟨trivial, ?_, fun _ => ⟨_, rfl⟩⟩
          intro id
          constructor
          · intro h
            cases h
          · rintro ⟨h, ht⟩
            cases h
            rw [hv] at ht
            cases ht

/-- Witness for C6: a listing that holds a record filed under the domain. -/
theorem C6_find_then_create_witness :
    (CertificateManager.getOrCreateCertificateId foundRuntime exampleConfig "svc.local"
      (JsVal.str "t") World.start).1 = .ok (JsVal.num 3) :=
  congrArg Prod.fst
    ((C6_find_then_create foundRuntime exampleConfig "svc.local" (JsVal.str "t") World.start
      _ exampleApiUrl [[("id", JsVal.num 3), ("nice_name", JsVal.str "svc.local")]]
      rfl rfl).1 _ rfl).1

/-- Counterexample to C6 as stated: the creation response has an `id` field,
equal to 0, and the call fails all the same. -/
theorem C6_fails_with_id_field_present :
    (zeroIdRuntime.exchange
        (Sent.mk HttpModule.https
          (CertificateManager.createOptions zeroIdRuntime exampleApiUrl (JsVal.str "t"))
          (Payload.json (CertificateManager.createData "svc.local"))) ()).1 =
      NetResult.response 201 [utf8 "\x7b\"id\":0\x7d"] ∧
    zeroIdRuntime.jsonParse
        (HttpManager.accumulate zeroIdRuntime [utf8 "\x7b\"id\":0\x7d"]) =
      some (JsVal.obj [("id", JsVal.num 0)]) ∧
    (JsVal.obj [("id", JsVal.num 0)]).hasField "id" = true ∧
    (CertificateManager.getOrCreateCertificateId zeroIdRuntime exampleConfig "svc.local"
      (JsVal.str "t") World.start).1 =
        .error (JsError.mk "Failed to create certificate entry") :=
  ⟨rfl, rfl, rfl, rfl⟩

/-! ### Certificate registry: resolving twice -/

theorem makeRequest_of_exchange {σ : Type} (rt : Runtime σ) (options : RequestOptions)
    (postData : Option JsVal) (module : HttpModule) (w : World σ) (statusCode : Int)
    (chunks : List (List UInt8)) (s1 : σ) (v : JsVal)
    (hex : rt.exchange (Sent.mk module options (Payload.ofPostData postData)) w.remote =
      (NetResult.response statusCode chunks, s1))
    (hs : 200 ≤ statusCode ∧ statusCode < 300)
    (hparse : rt.jsonParse (HttpManager.accumulate rt chunks) = some v) :
    HttpManager.makeRequest rt options postData module w =
      (.ok v, World.mk s1
        (w.sent ++ [Sent.mk module options (Payload.ofPostData postData)])) := by
  unfold HttpManager.makeRequest
  simp only [hex, hs, and_self, if_true, hparse]

theorem find?_append_last (domain : String) (records : List (List (String × JsVal)))
    (fields : List (String × JsVal)) (hnone : records.find? (isNamed domain) = none)
    (hnamed : isNamed domain fields = true) :
    (records ++ [fields]).find? (isNamed domain) = some fields := by
  rw [List.find?_append, hnone]
  simp [List.find?_cons, hnamed]

/-- C7 (as amended): over a registry model for the name (the listing returns
the stored records, a creation appends the new record with the id it returns),
whenever a call of `getOrCreateCertificateId` succeeds, the next call with the
same name succeeds with the same id, sends only the listing `GET` and leaves the
stored records as they are; and the first call succeeds when the ids that the
registry gives to the records filed under the name are truthy. -/
theorem C7_resolve_twice_same_id {σ : Type} (rt : Runtime σ)
    (records : σ → List (List (String × JsVal))) (config : Config) (domain : String)
    (token : JsVal) (w : World σ) (apiUrl : URLRecord)
    (hreg : RegistryModel rt records domain)
    (hurl : rt.newURL "/api/nginx/certificates" config.npm.url = .ok apiUrl) :
    (∀ id w1,
      CertificateManager.getOrCreateCertificateId rt config domain token w = (.ok id, w1) →
      ∃ w2,
        CertificateManager.getOrCreateCertificateId rt config domain token w1 =
          (.ok id, w2) ∧
        records w2.remote = records w1.remote ∧
        w2.sent = w1.sent ++ [Sent.mk (HttpManager.getHttpModule config.npm.url)
          (CertificateManager.listOptions rt apiUrl token) Payload.empty]) ∧
    (TruthyIds records domain →
      ∃ id w1,
        CertificateManager.getOrCreateCertificateId rt config domain token w =
          (.ok id, w1)) := by
  have hlistAt : ∀ u : World σ,
      HttpManager.makeRequest rt (CertificateManager.listOptions rt apiUrl token) none
        (HttpManager.getHttpModule config.npm.url) u =
        (.ok (JsVal.arr ((records u.remote).map JsVal.obj)),
          World.mk u.remote (u.sent ++ [Sent.mk (HttpManager.getHttpModule config.npm.url)
            (CertificateManager.listOptions rt apiUrl token) Payload.empty])) := by
    intro u
    obtain ⟨statusCode, chunks, hex, hs, hparse⟩ := hreg.list
      (Sent.mk (HttpManager.getHttpModule config.npm.url)
        (CertificateManager.listOptions rt apiUrl token) Payload.empty) u.remote rfl
    exact makeRequest_of_exchange rt _ none _ u statusCode chunks u.remote _ hex hs hparse
  cases hfind : (records w.remote).find? (isNamed domain) with
  | some r =>
    have h1 := getOrCreate_of_found rt config domain token w _ apiUrl (records w.remote) r
      hurl (hlistAt w) hfind
    have h2 := getOrCreate_of_found rt config domain token
      (World.mk w.remote (w.sent ++ [Sent.mk (HttpManager.getHttpModule config.npm.url)
        (CertificateManager.listOptions rt apiUrl token) Payload.empty]))
      _ apiUrl (records w.remote) r hurl (hlistAt _) hfind
    refine ⟨?_, fun _ => ⟨_, _, h1⟩⟩
    intro id w1 hfirst
    rw [h1] at hfirst
    cases hfirst
    exact ⟨_, h2, rfl, rfl⟩
  | none =>
    have h1 := getOrCreate_of_absent rt config domain token w _ apiUrl (records w.remote)
      hurl (hlistAt w) hfind
    obtain ⟨statusCode, chunks, s1, fields, hex, hs, hparse, hnamed, hrec⟩ :=
      hreg.create
        (Sent.mk (HttpManager.getHttpModule config.npm.url)
          (CertificateManager.createOptions rt apiUrl token)
          (Payload.json (CertificateManager.createData domain))) w.remote rfl rfl
    have hcreate := makeRequest_of_exchange rt
      (CertificateManager.createOptions rt apiUrl token)
      (some (CertificateManager.createData domain))
      (HttpManager.getHttpModule config.npm.url)
      (World.mk w.remote (w.sent ++ [Sent.mk (HttpManager.getHttpModule config.npm.url)
        (CertificateManager.listOptions rt apiUrl token) Payload.empty]))
      statusCode chunks s1 (JsVal.obj fields) hex hs hparse
    rw [hcreate] at h1
    simp only [JsVal.getProp] at h1
    have hfind2 : (records s1).find? (isNamed domain) = some fields := by
      rw [hrec]
      exact find?_append_last domain _ fields hfind hnamed
    have h2 := getOrCreate_of_found rt config domain token
      (World.mk s1 ((w.sent ++ [Sent.mk (HttpManager.getHttpModule config.npm.url)
        (CertificateManager.listOptions rt apiUrl token) Payload.empty]) ++
        [Sent.mk (HttpManager.getHttpModule config.npm.url)
          (CertificateManager.createOptions rt apiUrl token)
          (Payload.ofPostData (some (CertificateManager.createData domain)))]))
      _ apiUrl (records s1) fields hurl (hlistAt _) hfind2
    cases htruthy : ((fields.lookup "id").getD JsVal.undefined).truthy with
    | false =>
      rw [htruthy] at h1
      simp only [Bool.not_false, if_true] at h1
      refine ⟨?_, ?_⟩
      · intro id w1 hfirst
        rw [h1] at hfirst
        cases hfirst
      · intro hids
        have hmem : fields ∈ records s1 := by
          rw [hrec]
          simp
        have := hids s1 fields hmem hnamed
        rw [htruthy] at this
        cases this
    | true =>
      rw [htruthy] at h1
      simp only [Bool.not_true, Bool.false_eq_true, if_false] at h1
      refine ⟨?_, fun _ => ⟨_, _, h1⟩⟩
      intro id w1 hfirst
      rw [h1] at hfirst
      cases hfirst
      exact ⟨_, h2, rfl, rfl⟩

theorem unaryRegistry_model (first : Nat) :
    RegistryModel (unaryRegistry first) (unaryRecords first) "svc.local" where
  list := by
    intro sent s hget
    refine ⟨200, [List.replicate s 114], ?_, by decide, ?_⟩
    · simp [unaryRegistry, hget]
    · have hr : Char.ofNat (114 % UInt8.size) = 'r' := by decide
      cases s with
      | zero => rfl
      | succ n =>
        simp [unaryRegistry, HttpManager.accumulate, List.replicate_succ, hr]
  create := by
    intro sent s hpost _
    refine ⟨201, [99 :: List.replicate s 114], s + 1, unaryRecord (first + s), ?_,
      by decide, ?_, rfl, ?_⟩
    · simp [unaryRegistry, hpost]
    · have hc : Char.ofNat (99 % UInt8.size) = 'c' := by decide
      have hr : Char.ofNat (114 % UInt8.size) = 'r' := by decide
      simp [unaryRegistry, HttpManager.accumulate, hc, hr]
    · simp [unaryRecords, List.range_succ]

theorem unaryRegistry_truthyIds : TruthyIds (unaryRecords 1) "svc.local" := by
  intro s fields hmem _
  simp only [unaryRecords, List.mem_map, List.mem_range] at hmem
  obtain ⟨i, _, rfl⟩ := hmem
  simp only [unaryRecord, List.lookup, beq_self_eq_true, Option.getD_some, JsVal.truthy,
    bne_iff_ne, ne_eq]
  omega

/-- Witness for C7: the example registry that numbers from 1, empty at the
start. -/
theorem C7_resolve_twice_same_id_witness :
    ∃ id w1,
      CertificateManager.getOrCreateCertificateId (unaryRegistry 1) exampleConfig "svc.local"
        (JsVal.str "t") (World.mk 0 []) = (.ok id, w1) :=
  (C7_resolve_twice_same_id (unaryRegistry 1) (unaryRecords 1) exampleConfig "svc.local"
    (JsVal.str "t") (World.mk 0 []) exampleApiUrl (unaryRegistry_model 1) rfl).2
    unaryRegistry_truthyIds

/-- Counterexample to C7 as stated: the example registry that numbers from 0 is a
registry model, yet the first call fails, after the record with the id 0 has been
stored, and the second call returns 0. -/
theorem C7_first_call_fails_on_id_zero :
    RegistryModel (unaryRegistry 0) (unaryRecords 0) "svc.local" ∧
    (CertificateManager.getOrCreateCertificateId (unaryRegistry 0) exampleConfig "svc.local"
      (JsVal.str "t") (World.mk 0 [])).1 =
        .error (JsError.mk "Failed to create certificate entry") ∧
    unaryRecords 0 (CertificateManager.getOrCreateCertificateId (unaryRegistry 0)
      exampleConfig "svc.local" (JsVal.str "t") (World.mk 0 [])).2.remote =
        [unaryRecord 0] ∧
    (CertificateManager.getOrCreateCertificateId (unaryRegistry 0) exampleConfig "svc.local"
      (JsVal.str "t")
      (CertificateManager.getOrCreateCertificateId (unaryRegistry 0) exampleConfig "svc.local"
        (JsVal.str "t") (World.mk 0 [])).2).1 = .ok (JsVal.num 0) :=
  ⟨unaryRegistry_model 0, rfl, rfl, rfl⟩

/-! ### Publication: order of the steps -/

theorem uploadRequest_step (readFileSync : String → Except JsError (List UInt8)) (now : Nat)
    (options : RequestOptions) (files : List (String × String)) (module : HttpModule)
    (sent : Sent)
    (h : HttpManager.uploadRequest readFileSync now options files module = .ok sent) :
    sent.step = (options.method, options.path, "multipart") := by
  unfold HttpManager.uploadRequest at h
  simp only at h
  split at h
  · cases h
  · cases h
    rfl

theorem makeFileUploadRequest_steps {σ : Type} (rt : Runtime σ) (now : Nat)
    (options : RequestOptions) (files : List (String × String)) (module : HttpModule)
    (w : World σ) :
    ((HttpManager.makeFileUploadRequest rt now options files module w).2.steps = w.steps ∧
      ∃ e, (HttpManager.makeFileUploadRequest rt now options files module w).1 = .error e) ∨
    (HttpManager.makeFileUploadRequest rt now options files module w).2.steps =
      w.steps ++ [(options.method, options.path, "multipart")] := by
  unfold HttpManager.makeFileUploadRequest
  cases hreq : HttpManager.uploadRequest rt.readFileSync now options files module with
  | error e => exact Or.inl ⟨rfl, e, rfl⟩
  | ok sent =>
    right
    have hstep := uploadRequest_step rt.readFileSync now options files module sent hreq
    simp only
    split
    · simp [World.steps, hstep]
    · split
      · split <;> simp [World.steps, hstep]
      · simp [World.steps, hstep]

theorem makeRequest_steps {σ : Type} (rt : Runtime σ) (options : RequestOptions)
    (postData : Option JsVal) (module : HttpModule) (w : World σ) :
    (HttpManager.makeRequest rt options postData module w).2.steps =
      w.steps ++ [(options.method, options.path, (Payload.ofPostData postData).kind)] := by
  simp [World.steps, makeRequest_sent, Sent.step]

theorem validateCertificates_steps {σ : Type} (rt : Runtime σ) (config : Config) (now : Nat)
    (certFiles : CertFiles) (token : JsVal) (w : World σ) :
    ((CertificateManager.validateCertificates rt config now certFiles token w).2.steps =
        w.steps ∧
      ∃ e, (CertificateManager.validateCertificates rt config now certFiles token w).1 =
        .error e) ∨
    ∃ apiUrl, rt.newURL "/api/nginx/certificates/validate" config.npm.url = .ok apiUrl ∧
      (CertificateManager.validateCertificates rt config now certFiles token w).2.steps =
        w.steps ++ [("POST", apiUrl.pathname, "multipart")] := by
  simp only [CertificateManager.validateCertificates]
  cases hurl : rt.newURL "/api/nginx/certificates/validate" config.npm.url with
  | error e => exact Or.inl ⟨rfl, e, rfl⟩
  | ok apiUrl =>
    simp only
    have h := makeFileUploadRequest_steps rt now (CertificateManager.options rt apiUrl token)
      (CertificateManager.files certFiles) (HttpManager.getHttpModule config.npm.url) w
    rcases hm : HttpManager.makeFileUploadRequest rt now
      (CertificateManager.options rt apiUrl token) (CertificateManager.files certFiles)
      (HttpManager.getHttpModule config.npm.url) w with ⟨res, w1⟩
    rw [hm] at h
    simp only at h
    cases res with
    | error e =>
      rcases h with ⟨h, _⟩ | h
      · exact Or.inl ⟨h, e, rfl⟩
      · exact Or.inr ⟨apiUrl, rfl, h⟩
    | ok x =>
      rcases h with ⟨_, e, he⟩ | h
      · cases he
      · exact Or.inr ⟨apiUrl, rfl, h⟩

theorem getOrCreateCertificateId_steps {σ : Type} (rt : Runtime σ) (config : Config)
    (domain : String) (token : JsVal) (w : World σ) :
    ((CertificateManager.getOrCreateCertificateId rt config domain token w).2.steps =
        w.steps ∧
      ∃ e, (CertificateManager.getOrCreateCertificateId rt config domain token w).1 =
        .error e) ∨
    ∃ apiUrl, rt.newURL "/api/nginx/certificates" config.npm.url = .ok apiUrl ∧
      ((CertificateManager.getOrCreateCertificateId rt config domain token w).2.steps =
          w.steps ++ [("GET", apiUrl.pathname, "none")] ∨
        (CertificateManager.getOrCreateCertificateId rt config domain token w).2.steps =
          w.steps ++ [("GET", apiUrl.pathname, "none"), ("POST", apiUrl.pathname, "json")]) := by
  simp only [CertificateManager.getOrCreateCertificateId]
  cases hurl : rt.newURL "/api/nginx/certificates" config.npm.url with
  | error e => exact Or.inl ⟨rfl, e, rfl⟩
  | ok apiUrl =>
    right
    refine ⟨apiUrl, rfl, ?_⟩
    simp only
    have h1 := makeRequest_steps rt (CertificateManager.listOptions rt apiUrl token) none
      (HttpManager.getHttpModule config.npm.url) w
    rcases hm : HttpManager.makeRequest rt (CertificateManager.listOptions rt apiUrl token)
      none (HttpManager.getHttpModule config.npm.url) w with ⟨res, w1⟩
    rw [hm] at h1
    have h1 : w1.steps = w.steps ++ [("GET", apiUrl.pathname, "none")] := h1
    have h2 : (HttpManager.makeRequest rt (CertificateManager.createOptions rt apiUrl token)
        (some (CertificateManager.createData domain))
        (HttpManager.getHttpModule config.npm.url) w1).2.steps =
        w.steps ++ [("GET", apiUrl.pathname, "none"), ("POST", apiUrl.pathname, "json")] := by
      rw [makeRequest_steps, h1, List.append_assoc]
      rfl
    cases res with
    | error e => exact Or.inl h1
    | ok certificates =>
      simp only
      split
      · split
        · exact Or.inl h1
        · split
          · split
            · exact Or.inl h1
            · exact Or.inl h1
          · rcases hc : HttpManager.makeRequest rt
              (CertificateManager.createOptions rt apiUrl token)
              (some (CertificateManager.createData domain))
              (HttpManager.getHttpModule config.npm.url) w1 with ⟨res2, w2⟩
            rw [hc] at h2
            cases res2 with
            | error e => exact Or.inr h2
            | ok createResponse =>
              simp only
              split
              · exact Or.inr h2
              · split
                · exact Or.inr h2
                · exact Or.inr h2
      · exact Or.inl h1

theorem makeRequest_eq_settle {σ : Type} (rt : Runtime σ) (options : RequestOptions)
    (postData : Option JsVal) (module : HttpModule) (w : World σ) :
    HttpManager.makeRequest rt options postData module w =
      (HttpManager.settle rt
          (rt.exchange (Sent.mk module options (Payload.ofPostData postData)) w.remote).1,
        World.mk
          (rt.exchange (Sent.mk module options (Payload.ofPostData postData)) w.remote).2
          (w.sent ++ [Sent.mk module options (Payload.ofPostData postData)])) := by
  unfold HttpManager.makeRequest HttpManager.settle
  simp only
  split
  · rfl
  · split
    · split <;> simp_all
    · simp_all

theorem makeFileUploadRequest_eq_settle {σ : Type} (rt : Runtime σ) (now : Nat)
    (options : RequestOptions) (files : List (String × String)) (module : HttpModule)
    (w : World σ) (sent : Sent)
    (hsent : HttpManager.uploadRequest rt.readFileSync now options files module = .ok sent) :
    HttpManager.makeFileUploadRequest rt now options files module w =
      (HttpManager.settle rt (rt.exchange sent w.remote).1,
        World.mk (rt.exchange sent w.remote).2 (w.sent ++ [sent])) := by
  unfold HttpManager.makeFileUploadRequest HttpManager.settle
  simp only [hsent]
  split
  · rfl
  · split
    · split <;> simp_all
    · simp_all

theorem makeFileUploadRequest_of_unreadable {σ : Type} (rt : Runtime σ) (now : Nat)
    (options : RequestOptions) (files : List (String × String)) (module : HttpModule)
    (w : World σ) (e : JsError)
    (hsent : HttpManager.uploadRequest rt.readFileSync now options files module = .error e) :
    HttpManager.makeFileUploadRequest rt now options files module w = (.error e, w) := by
  unfold HttpManager.makeFileUploadRequest
  simp only [hsent]

theorem validateCertificates_eq {σ : Type} (rt : Runtime σ) (config : Config) (now : Nat)
    (certFiles : CertFiles) (token : JsVal) (w : World σ) (apiUrl : URLRecord) (sent : Sent)
    (hurl : rt.newURL "/api/nginx/certificates/validate" config.npm.url = .ok apiUrl)
    (hsent : HttpManager.uploadRequest rt.readFileSync now
      (CertificateManager.options rt apiUrl token) (CertificateManager.files certFiles)
      (HttpManager.getHttpModule config.npm.url) = .ok sent) :
    CertificateManager.validateCertificates rt config now certFiles token w =
      (uploadOutcome rt (rt.exchange sent w.remote).1,
        World.mk (rt.exchange sent w.remote).2 (w.sent ++ [sent])) := by
  simp only [CertificateManager.validateCertificates, hurl,
    makeFileUploadRequest_eq_settle rt now _ _ _ w sent hsent, uploadOutcome]
  cases HttpManager.settle rt (rt.exchange sent w.remote).1 <;> rfl

theorem uploadOutcome_of_rejected {σ : Type} (rt : Runtime σ) (statusCode : Int)
    (chunks : List (List UInt8)) (hs : ¬ (200 ≤ statusCode ∧ statusCode < 300)) :
    uploadOutcome rt (NetResult.response statusCode chunks) =
      .error (JsError.mk ("Request failed with status " ++ toString statusCode ++ ": " ++
        HttpManager.accumulate rt chunks)) := by
  simp only [uploadOutcome, HttpManager.settle, hs, if_false]

theorem uploadOutcome_of_accepted {σ : Type} (rt : Runtime σ) (statusCode : Int)
    (chunks : List (List UInt8)) (hs : 200 ≤ statusCode ∧ statusCode < 300) :
    uploadOutcome rt (NetResult.response statusCode chunks) = .ok () := by
  simp only [uploadOutcome, HttpManager.settle, hs, and_self, if_true]

theorem uploadCertificateToNPM_of_validation {σ : Type} (rt : Runtime σ) (config : Config)
    (nowValidate nowUpload : Nat) (domain : String) (certFiles : CertFiles) (token : JsVal)
    (w w1 : World σ) (e : JsError)
    (h : CertificateManager.validateCertificates rt config nowValidate certFiles token w =
      (.error e, w1)) :
    CertificateManager.uploadCertificateToNPM rt config nowValidate nowUpload domain
      certFiles token w = (.error e, w1) := by
  simp only [CertificateManager.uploadCertificateToNPM, h]

theorem uploadCertificateToNPM_of_resolution {σ : Type} (rt : Runtime σ) (config : Config)
    (nowValidate nowUpload : Nat) (domain : String) (certFiles : CertFiles) (token : JsVal)
    (w w1 w2 : World σ) (e : JsError)
    (hv : CertificateManager.validateCertificates rt config nowValidate certFiles token w =
      (.ok (), w1))
    (hg : CertificateManager.getOrCreateCertificateId rt config domain token w1 =
      (.error e, w2)) :
    CertificateManager.uploadCertificateToNPM rt config nowValidate nowUpload domain
      certFiles token w = (.error e, w2) := by
  simp only [CertificateManager.uploadCertificateToNPM, hv, hg]

theorem uploadCertificateToNPM_of_id {σ : Type} (rt : Runtime σ) (config : Config)
    (nowValidate nowUpload : Nat) (domain : String) (certFiles : CertFiles) (token : JsVal)
    (w w1 w2 : World σ) (certId : JsVal)
    (hv : CertificateManager.validateCertificates rt config nowValidate certFiles token w =
      (.ok (), w1))
    (hg : CertificateManager.getOrCreateCertificateId rt config domain token w1 =
      (.ok certId, w2)) :
    CertificateManager.uploadCertificateToNPM rt config nowValidate nowUpload domain
      certFiles token w =
      match rt.newURL (uploadPath rt certId) config.npm.url with
      | .error e => (.error e, w2)
      | .ok uploadUrl =>
        match HttpManager.makeFileUploadRequest rt nowUpload
            (CertificateManager.options rt uploadUrl token) (CertificateManager.files certFiles)
            (HttpManager.getHttpModule config.npm.url) w2 with
        | (.error e, w3) => (.error e, w3)
        | (.ok _, w3) => (.ok (), w3) := by
  simp only [CertificateManager.uploadCertificateToNPM, hv, hg, uploadPath]

/-- C8 (as amended): `uploadCertificateToNPM` sends the validation `POST` first.
When the answer to it is an error or has a status outside 200..299, that failure
is the result of the call and nothing else is sent. Otherwise it resolves the id
from the state the validation left: a failure of `getOrCreateCertificateId` is
the result of the call and no upload is sent; the listing `GET` is followed by
the creation `POST` exactly when no listed record is filed under the domain.
With the id resolved, the upload `POST` goes to the path that `new URL` gives
for `/api/nginx/certificates/<id>/upload`, and the outcome of that request is the
result of the call. A URL that does not parse or a file that cannot be read
fails the call before the request it belongs to. -/
theorem C8_publish_steps_in_order {σ : Type} (rt : Runtime σ) (config : Config)
    (nowValidate nowUpload : Nat) (domain : String) (certFiles : CertFiles) (token : JsVal)
    (w : World σ) :
    (∀ e, rt.newURL "/api/nginx/certificates/validate" config.npm.url = .error e →
      CertificateManager.uploadCertificateToNPM rt config nowValidate nowUpload domain
        certFiles token w = (.error e, w)) ∧
    (∀ vUrl, rt.newURL "/api/nginx/certificates/validate" config.npm.url = .ok vUrl →
      (∀ e, HttpManager.uploadRequest rt.readFileSync nowValidate
          (CertificateManager.options rt vUrl token) (CertificateManager.files certFiles)
          (HttpManager.getHttpModule config.npm.url) = .error e →
        CertificateManager.uploadCertificateToNPM rt config nowValidate nowUpload domain
          certFiles token w = (.error e, w)) ∧
      (∀ vSent w1, HttpManager.uploadRequest rt.readFileSync nowValidate
          (CertificateManager.options rt vUrl token) (CertificateManager.files certFiles)
          (HttpManager.getHttpModule config.npm.url) = .ok vSent →
        w1 = World.mk (rt.exchange vSent w.remote).2 (w.sent ++ [vSent]) →
        vSent.step = ("POST", vUrl.pathname, "multipart") ∧
        (∀ e, uploadOutcome rt (rt.exchange vSent w.remote).1 = .error e →
          CertificateManager.uploadCertificateToNPM rt config nowValidate nowUpload domain
            certFiles token w = (.error e, w1)) ∧
        (∀ statusCode chunks,
          (rt.exchange vSent w.remote).1 = NetResult.response statusCode chunks →
          ¬ (200 ≤ statusCode ∧ statusCode < 300) →
          CertificateManager.uploadCertificateToNPM rt config nowValidate nowUpload domain
            certFiles token w =
            (.error (JsError.mk ("Request failed with status " ++ toString statusCode ++
              ": " ++ HttpManager.accumulate rt chunks)), w1)) ∧
        (uploadOutcome rt (rt.exchange vSent w.remote).1 = .ok () →
          (∀ e w2,
            CertificateManager.getOrCreateCertificateId rt config domain token w1 =
              (.error e, w2) →
            CertificateManager.uploadCertificateToNPM rt config nowValidate nowUpload domain
              certFiles token w = (.error e, w2) ∧
            (w2.steps = w1.steps ∨
              ∃ cUrl, rt.newURL "/api/nginx/certificates" config.npm.url = .ok cUrl ∧
                (w2.steps = w1.steps ++ [("GET", cUrl.pathname, "none")] ∨
                  w2.steps = w1.steps ++
                    [("GET", cUrl.pathname, "none"), ("POST", cUrl.pathname, "json")]))) ∧
          (∀ cUrl statusCode chunks (records : List (List (String × JsVal))),
            rt.newURL "/api/nginx/certificates" config.npm.url = .ok cUrl →
            (rt.exchange (Sent.mk (HttpManager.getHttpModule config.npm.url)
              (CertificateManager.listOptions rt cUrl token) Payload.empty) w1.remote).1 =
              NetResult.response statusCode chunks →
            (200 ≤ statusCode ∧ statusCode < 300) →
            rt.jsonParse (HttpManager.accumulate rt chunks) =
              some (JsVal.arr (records.map JsVal.obj)) →
            (∀ r, records.find? (isNamed domain) = some r →
              CertificateManager.getOrCreateCertificateId rt config domain token w1 =
                (.ok ((r.lookup "id").getD JsVal.undefined),
                  World.mk (rt.exchange (Sent.mk (HttpManager.getHttpModule config.npm.url)
                    (CertificateManager.listOptions rt cUrl token) Payload.empty)
                    w1.remote).2
                    (w1.sent ++ [Sent.mk (HttpManager.getHttpModule config.npm.url)
                      (CertificateManager.listOptions rt cUrl token) Payload.empty]))) ∧
            (records.find? (isNamed domain) = none →
              (CertificateManager.getOrCreateCertificateId rt config domain token w1).2.sent =
                w1.sent ++ [Sent.mk (HttpManager.getHttpModule config.npm.url)
                    (CertificateManager.listOptions rt cUrl token) Payload.empty,
                  Sent.mk (HttpManager.getHttpModule config.npm.url)
                    (CertificateManager.createOptions rt cUrl token)
                    (Payload.json (CertificateManager.createData domain))])) ∧
          (∀ certId w2,
            CertificateManager.getOrCreateCertificateId rt config domain token w1 =
              (.ok certId, w2) →
            (∀ e, rt.newURL (uploadPath rt certId) config.npm.url = .error e →
              CertificateManager.uploadCertificateToNPM rt config nowValidate nowUpload
                domain certFiles token w = (.error e, w2)) ∧
            (∀ uUrl, rt.newURL (uploadPath rt certId) config.npm.url = .ok uUrl →
              (∀ e, HttpManager.uploadRequest rt.readFileSync nowUpload
                  (CertificateManager.options rt uUrl token)
                  (CertificateManager.files certFiles)
                  (HttpManager.getHttpModule config.npm.url) = .error e →
                CertificateManager.uploadCertificateToNPM rt config nowValidate nowUpload
                  domain certFiles token w = (.error e, w2)) ∧
              (∀ uSent, HttpManager.uploadRequest rt.readFileSync nowUpload
                  (CertificateManager.options rt uUrl token)
                  (CertificateManager.files certFiles)
                  (HttpManager.getHttpModule config.npm.url) = .ok uSent →
                uSent.step = ("POST", uUrl.pathname, "multipart") ∧
                CertificateManager.uploadCertificateToNPM rt config nowValidate nowUpload
                  domain certFiles token w =
                  (uploadOutcome rt (rt.exchange uSent w2.remote).1,
                    World.mk (rt.exchange uSent w2.remote).2 (w2.sent ++ [uSent])))))))) := by
  constructor
  · intro e hurl
    simp only [CertificateManager.uploadCertificateToNPM,
      CertificateManager.validateCertificates, hurl]
  · intro vUrl hurl
    constructor
    · intro e hreq
      apply uploadCertificateToNPM_of_validation
      simp only [CertificateManager.validateCertificates, hurl,
        makeFileUploadRequest_of_unreadable rt nowValidate _ _ _ w e hreq]
    · intro vSent w1 hreq hw1
      have hval := validateCertificates_eq rt config nowValidate certFiles token w vUrl vSent
        hurl hreq
      rw [← hw1] at hval
      refine ⟨uploadRequest_step _ _ _ _ _ _ hreq, ?_, ?_, ?_⟩
      · intro e he
        rw [he] at hval
        exact uploadCertificateToNPM_of_validation rt config nowValidate nowUpload domain
          certFiles token w w1 e hval
      · intro statusCode chunks hans hs
        rw [hans, uploadOutcome_of_rejected rt statusCode chunks hs] at hval
        exact uploadCertificateToNPM_of_validation rt config nowValidate nowUpload domain
          certFiles token w w1 _ hval
      · intro hok
        rw [hok] at hval
        refine ⟨?_, ?_, ?_⟩
        · intro e w2 hget
          refine ⟨uploadCertificateToNPM_of_resolution rt config nowValidate nowUpload
            domain certFiles token w w1 w2 e hval hget, ?_⟩
          have hg := getOrCreateCertificateId_steps rt config domain token w1
          rw [hget] at hg
          rcases hg with ⟨h, _⟩ | h
          · exact Or.inl h
          · exact Or.inr h
        · intro cUrl statusCode chunks records hcurl hans hs hparse
          have hlist := makeRequest_of_exchange rt
            (CertificateManager.listOptions rt cUrl token) none
            (HttpManager.getHttpModule config.npm.url) w1 statusCode chunks
            (rt.exchange (Sent.mk (HttpManager.getHttpModule config.npm.url)
              (CertificateManager.listOptions rt cUrl token) Payload.empty) w1.remote).2
            (JsVal.arr (records.map JsVal.obj))
            (by rw [← hans]; rfl) hs hparse
          constructor
          · intro r hr
            exact getOrCreate_of_found rt config domain token w1 _ cUrl records r hcurl hlist
              hr
          · intro hnone
            have hstep := getOrCreate_of_absent rt config domain token w1 _ cUrl records
              hcurl hlist hnone
            have hs := makeRequest_sent rt (CertificateManager.createOptions rt cUrl token)
              (some (CertificateManager.createData domain))
              (HttpManager.getHttpModule config.npm.url)
              (World.mk (rt.exchange (Sent.mk (HttpManager.getHttpModule config.npm.url)
                (CertificateManager.listOptions rt cUrl token) Payload.empty) w1.remote).2
                (w1.sent ++ [Sent.mk (HttpManager.getHttpModule config.npm.url)
                  (CertificateManager.listOptions rt cUrl token) (Payload.ofPostData none)]))
            rw [hstep]
            generalize HttpManager.makeRequest rt
              (CertificateManager.createOptions rt cUrl token)
              (some (CertificateManager.createData domain))
              (HttpManager.getHttpModule config.npm.url) _ = res at hs ⊢
            have hgoal : ∀ x : Except JsError JsVal × World σ, x.2 = res.2 →
                x.2.sent = w1.sent ++
                  [Sent.mk (HttpManager.getHttpModule config.npm.url)
                    (CertificateManager.listOptions rt cUrl token) Payload.empty,
                  Sent.mk (HttpManager.getHttpModule config.npm.url)
                    (CertificateManager.createOptions rt cUrl token)
                    (Payload.json (CertificateManager.createData domain))] := by
              intro x hx
              rw [hx, hs]
              simp [Payload.ofPostData]
            apply hgoal
            rcases res with ⟨r | r, w2⟩
            · rfl
            · simp only
              cases r.getProp "id" with
              | none => rfl
              | some id => simp only; split <;> rfl
        · intro certId w2 hget
          have hpub := uploadCertificateToNPM_of_id rt config nowValidate nowUpload domain
            certFiles token w w1 w2 certId hval hget
          constructor
          · intro e hu
            rw [hpub, hu]
          · intro uUrl hu
            constructor
            · intro e hreq2
              rw [hpub, hu]
              simp only [makeFileUploadRequest_of_unreadable rt nowUpload _ _ _ w2 e hreq2]
            · intro uSent hreq2
              refine ⟨uploadRequest_step _ _ _ _ _ _ hreq2, ?_⟩
              rw [hpub, hu]
              simp only [makeFileUploadRequest_eq_settle rt nowUpload _ _ _ w2 uSent hreq2,
                uploadOutcome]
              cases HttpManager.settle rt (rt.exchange uSent w2.remote).1 <;> rfl

theorem C8_publish_steps_in_order_witness :
    (CertificateManager.uploadCertificateToNPM createdRuntime exampleConfig 0 1 "svc.local"
      exampleCertFiles (JsVal.str "t") World.start).1 = .ok () :=
  congrArg Prod.fst
    (((((((C8_publish_steps_in_order createdRuntime exampleConfig 0 1 "svc.local"
      exampleCertFiles (JsVal.str "t") World.start).2
        { protocol := "https:", hostname := "npm.local", port := "",
          pathname := "/api/nginx/certificates/validate" } rfl).2 _ _ rfl rfl).2.2.2 rfl).2.2
        (JsVal.num 7) _ rfl).2
        { protocol := "https:", hostname := "npm.local", port := "",
          pathname := "/api/nginx/certificates/7/upload" } rfl).2 _ rfl).2

/-- C8 (counterexample): the peer answers the creation `POST` with the id `7?x`.
`getOrCreateCertificateId` returns that id and the call succeeds, but the upload
`POST` goes to `/api/nginx/certificates/7`, the path that URL resolution gives,
which is not `/api/nginx/certificates/7?x/upload`. -/
theorem C8_upload_path_cut_at_query :
    (CertificateManager.getOrCreateCertificateId queryRuntime exampleConfig "svc.local"
      (JsVal.str "t")
      (CertificateManager.validateCertificates queryRuntime exampleConfig 0
        exampleCertFiles (JsVal.str "t") World.start).2).1 = .ok (JsVal.str "7?x") ∧
    (CertificateManager.uploadCertificateToNPM queryRuntime exampleConfig 0 1 "svc.local"
      exampleCertFiles (JsVal.str "t") World.start).1 = .ok () ∧
    (CertificateManager.uploadCertificateToNPM queryRuntime exampleConfig 0 1 "svc.local"
      exampleCertFiles (JsVal.str "t") World.start).2.steps =
      [("POST", "/api/nginx/certificates/validate", "multipart"),
       ("GET", "/api/nginx/certificates", "none"),
       ("POST", "/api/nginx/certificates", "json"),
       ("POST", "/api/nginx/certificates/7", "multipart")] ∧
    uploadPath queryRuntime (JsVal.str "7?x") = "/api/nginx/certificates/7?x/upload" ∧
    "/api/nginx/certificates/7" ≠ uploadPath queryRuntime (JsVal.str "7?x") :=
  ⟨rfl, rfl, by decide, by decide, by decide⟩

theorem publish_example_steps :
    (CertificateManager.uploadCertificateToNPM createdRuntime exampleConfig 0 1 "svc.local"
      exampleCertFiles (JsVal.str "t") World.start).2.steps =
      [("POST", "/api/nginx/certificates/validate", "multipart"),
       ("GET", "/api/nginx/certificates", "none"),
       ("POST", "/api/nginx/certificates", "json"),
       ("POST", "/api/nginx/certificates/7/upload", "multipart")] := by
  decide

/-! ### Certificate issuance -/

theorem execute_spawned {φ : Type} (sys : ProcRuntime φ) (command : String)
    (args : List String) (w : ProcWorld φ) :
    (CommandExecutor.execute sys command args w).2 =
      { fs := (sys.spawn command args w.fs).2, spawned := w.spawned ++ [(command, args)] } := by
  unfold CommandExecutor.execute
  simp only
  split
  · split <;> rfl
  · rfl

theorem execute_ok_iff {φ : Type} (sys : ProcRuntime φ) (command : String)
    (args : List String) (w : ProcWorld φ) :
    (CommandExecutor.execute sys command args w).1 = .ok () ↔
      (sys.spawn command args w.fs).1 = ProcOutcome.close (some 0) := by
  unfold CommandExecutor.execute
  simp only
  cases h : (sys.spawn command args w.fs).1 with
  | close code =>
    by_cases hc : code = some 0
    · simp [hc]
    · simp [hc]
  | error message => simp

theorem generateCertificate_spawned {φ : Type} (sys : ProcRuntime φ) (config : Config)
    (domain : String) (w : ProcWorld φ) (hurl : config.stepCa.url ≠ "")
    (hroot : config.stepCa.root ≠ "") :
    (CertificateManager.generateCertificate sys config domain w).2.spawned =
      w.spawned ++ [("step", ["ca", "certificate", domain, domain ++ ".crt",
        domain ++ ".key", "--not-after=87600h", "--ca-url", config.stepCa.url,
        "--root", config.stepCa.root])] := by
  simp only [CertificateManager.generateCertificate, hurl, hroot, or_self, if_false]
  have hx := execute_spawned sys "step"
    (CertificateManager.args domain config.stepCa.url config.stepCa.root) w
  rcases he : CommandExecutor.execute sys "step"
    (CertificateManager.args domain config.stepCa.url config.stepCa.root) w with ⟨res, w1⟩
  rw [he] at hx
  simp only at hx
  subst hx
  cases res with
  | error e => rfl
  | ok u =>
    simp only
    split
    · rfl
    · split
      · rfl
      · split <;> rfl

/-- C9 (as amended): for every domain and every configuration with non-empty
`stepCa.url` and `stepCa.root`, `generateCertificate` spawns the executable
`step` once, with exactly the arguments `ca`, `certificate`, the domain, the
domain with `.crt`, the domain with `.key`, `--not-after=87600h`, `--ca-url`, the
URL, `--root`, the root, in this order; two configurations with the same URL
and root give the same arguments. -/
theorem C9_step_arguments {φ : Type} (sys : ProcRuntime φ) (config : Config)
    (domain : String) (w : ProcWorld φ) (hurl : config.stepCa.url ≠ "")
    (hroot : config.stepCa.root ≠ "") :
    (CertificateManager.generateCertificate sys config domain w).2.spawned =
      w.spawned ++ [("step", ["ca", "certificate", domain, domain ++ ".crt",
        domain ++ ".key", "--not-after=87600h", "--ca-url", config.stepCa.url,
        "--root", config.stepCa.root])] ∧
    ∀ other : Config, other.stepCa.url = config.stepCa.url →
      other.stepCa.root = config.stepCa.root →
      (CertificateManager.generateCertificate sys other domain w).2.spawned =
        (CertificateManager.generateCertificate sys config domain w).2.spawned := by
  refine ⟨generateCertificate_spawned sys config domain w hurl hroot, ?_⟩
  intro other hu hr
  rw [generateCertificate_spawned sys config domain w hurl hroot,
    generateCertificate_spawned sys other domain w (hu ▸ hurl) (hr ▸ hroot), hu, hr]

/-- Witness for C9: the example configuration and the domain `svc.local`. -/
theorem C9_step_arguments_witness :
    (CertificateManager.generateCertificate okProc exampleConfig "svc.local"
        ProcWorld.start).2.spawned =
      [("step", ["ca", "certificate", "svc.local", "svc.local.crt", "svc.local.key",
        "--not-after=87600h", "--ca-url", "https://ca.local", "--root", "root.crt"])] :=
  (C9_step_arguments okProc exampleConfig "svc.local" ProcWorld.start (by decide)
    (by decide)).1

/-- Counterexample to C9 as stated: the arguments passed to the executable are
not the eight listed ones; they start with `ca` and `certificate`. -/
theorem C9_arguments_start_with_subcommand :
    (CertificateManager.generateCertificate okProc exampleConfig "svc.local"
        ProcWorld.start).2.spawned.map Prod.snd ≠
      [["svc.local", "svc.local.crt", "svc.local.key", "--not-after=87600h", "--ca-url",
        "https://ca.local", "--root", "root.crt"]] := by
  decide

/-- C10 (as amended): `generateCertificate` returns the pair of file names
`<domain>.crt` and `<domain>.key` if and only if `stepCa.url` and `stepCa.root` are
both non-empty, the process exits with code 0, both files exist afterwards and
both permission changes succeed; otherwise it fails. It fails without running the
process when the URL or the root is empty, and with exit code 0 and a file absent
it fails with the error of the missing files. -/
theorem C10_issue_outcome {φ : Type} (sys : ProcRuntime φ) (config : Config)
    (domain : String) (w : ProcWorld φ) :
    ((CertificateManager.generateCertificate sys config domain w).1 =
        .ok { certFile := domain ++ ".crt", keyFile := domain ++ ".key" } ↔
      (config.stepCa.url ≠ "" ∧ config.stepCa.root ≠ "" ∧
        (sys.spawn "step"
          (CertificateManager.args domain config.stepCa.url config.stepCa.root) w.fs).1 =
          ProcOutcome.close (some 0) ∧
        sys.existsSync (domain ++ ".crt") (sys.spawn "step"
          (CertificateManager.args domain config.stepCa.url config.stepCa.root) w.fs).2 =
          true ∧
        sys.existsSync (domain ++ ".key") (sys.spawn "step"
          (CertificateManager.args domain config.stepCa.url config.stepCa.root) w.fs).2 =
          true ∧
        ∃ fs2 fs3,
          sys.chmodSync (domain ++ ".crt") 0o644 (sys.spawn "step"
            (CertificateManager.args domain config.stepCa.url config.stepCa.root) w.fs).2 =
            .ok fs2 ∧
          sys.chmodSync (domain ++ ".key") 0o644 fs2 = .ok fs3)) ∧
    ((CertificateManager.generateCertificate sys config domain w).1 =
        .ok { certFile := domain ++ ".crt", keyFile := domain ++ ".key" } ∨
      ∃ e, (CertificateManager.generateCertificate sys config domain w).1 = .error e) ∧
    ((config.stepCa.url = "" ∨ config.stepCa.root = "") →
      CertificateManager.generateCertificate sys config domain w =
        (.error (JsError.mk "Missing Step CA configuration. Please run: tcf configure"),
          w)) ∧
    (config.stepCa.url ≠ "" → config.stepCa.root ≠ "" →
      (sys.spawn "step"
        (CertificateManager.args domain config.stepCa.url config.stepCa.root) w.fs).1 =
        ProcOutcome.close (some 0) →
      (sys.existsSync (domain ++ ".crt") (sys.spawn "step"
          (CertificateManager.args domain config.stepCa.url config.stepCa.root) w.fs).2 =
          false ∨
        sys.existsSync (domain ++ ".key") (sys.spawn "step"
          (CertificateManager.args domain config.stepCa.url config.stepCa.root) w.fs).2 =
          false) →
      (CertificateManager.generateCertificate sys config domain w).1 =
        .error (JsError.mk "Certificate files were not generated")) := by
  by_cases hcfg : config.stepCa.url = "" ∨ config.stepCa.root = ""
  · have hgen : CertificateManager.generateCertificate sys config domain w =
        (.error (JsError.mk "Missing Step CA configuration. Please run: tcf configure"),
          w) := by
      simp only [CertificateManager.generateCertificate, hcfg, if_true]
    refine ⟨?_, Or.inr ⟨_, by rw [hgen]⟩, fun _ => hgen, ?_⟩
    · rw [hgen]
      constructor
      · intro h
        cases h
      · rintro ⟨hu, hr, _⟩
        rcases hcfg with h | h
        · exact absurd h hu
        · exact absurd h hr
    · intro hu hr
      rcases hcfg with h | h
      · exact absurd h hu
      · exact absurd h hr
  · have hu : config.stepCa.url ≠ "" := fun h => hcfg (Or.inl h)
    have hr : config.stepCa.root ≠ "" := fun h => hcfg (Or.inr h)
    have hx := execute_spawned sys "step"
      (CertificateManager.args domain config.stepCa.url config.stepCa.root) w
    have hok := execute_ok_iff sys "step"
      (CertificateManager.args domain config.stepCa.url config.stepCa.root) w
    simp only [CertificateManager.generateCertificate, hcfg, if_false]
    rcases he : CommandExecutor.execute sys "step"
      (CertificateManager.args domain config.stepCa.url config.stepCa.root) w with ⟨res, w1⟩
    rw [he] at hx hok
    simp only at hx hok
    subst hx
    cases res with
    | error e =>
      have hne : (sys.spawn "step"
          (CertificateManager.args domain config.stepCa.url config.stepCa.root) w.fs).1 ≠
          ProcOutcome.close (some 0) := fun h => by
        have := hok.mpr h
        cases this
      refine ⟨?_, Or.inr ⟨e, rfl⟩, fun h => h.elim, fun _ _ h => absurd h hne⟩
      constructor
      · intro h
        cases h
      · rintro ⟨_, _, h, _⟩
        exact absurd h hne
    | ok u =>
      have hsp := hok.mp rfl
      simp only
      cases hc : sys.existsSync (domain ++ ".crt") (sys.spawn "step"
          (CertificateManager.args domain config.stepCa.url config.stepCa.root) w.fs).2 with
      | false =>
        simp only [Bool.not_false, Bool.true_or, if_true]
        refine ⟨?_, Or.inr ⟨_, rfl⟩, fun h => h.elim, by intros; trivial⟩
        constructor
        · intro h
          cases h
        · rintro ⟨_, _, _, h, _⟩
          cases h
      | true =>
        cases hk : sys.existsSync (domain ++ ".key") (sys.spawn "step"
            (CertificateManager.args domain config.stepCa.url config.stepCa.root) w.fs).2 with
        | false =>
          simp only [Bool.not_true, Bool.not_false, Bool.or_true, if_true]
          refine ⟨?_, Or.inr ⟨_, rfl⟩, fun h => h.elim, by intros; trivial⟩
          constructor
          · intro h
            cases h
          · rintro ⟨_, _, _, _, h, _⟩
            cases h
        | true =>
          simp only [Bool.not_true, Bool.or_self, Bool.false_eq_true, if_false]
          cases h1 : sys.chmodSync (domain ++ ".crt") 0o644 (sys.spawn "step"
              (CertificateManager.args domain config.stepCa.url config.stepCa.root)
              w.fs).2 with
          | error e =>
            refine ⟨?_, Or.inr ⟨e, rfl⟩, fun h => h.elim, ?_⟩
            · constructor
              · intro h
                cases h
              · rintro ⟨_, _, _, _, _, fs2, fs3, h, _⟩
                cases h
            · rintro _ _ _ (h | h) <;> cases h
          | ok fs2 =>
            simp only
            cases h2 : sys.chmodSync (domain ++ ".key") 0o644 fs2 with
            | error e =>
              refine ⟨?_, Or.inr ⟨e, rfl⟩, fun h => h.elim, ?_⟩
              · constructor
                · intro h
                  cases h
                · rintro ⟨_, _, _, _, _, fs2', fs3, h, h'⟩
                  cases h
                  rw [h2] at h'
                  cases h'
              · rintro _ _ _ (h | h) <;> cases h
            | ok fs3 =>
              refine ⟨?_, Or.inl rfl, fun h => h.elim, ?_⟩
              · constructor
                · intro _
                  exact ⟨hu, hr, hsp, trivial, trivial, fs2, fs3, rfl, h2⟩
                · intro _
                  rfl
              · rintro _ _ _ (h | h) <;> cases h

/-- Counterexample to C10 as stated: the URL and the root are non-empty, the
process exits with code 0 and both files exist, and the call fails all the same,
because the permission change is refused. -/
theorem C10_fails_when_chmod_is_refused :
    exampleConfig.stepCa.url ≠ "" ∧ exampleConfig.stepCa.root ≠ "" ∧
    (chmodRefused.spawn "step"
      (CertificateManager.args "svc.local" exampleConfig.stepCa.url
        exampleConfig.stepCa.root) ProcWorld.start.fs).1 = ProcOutcome.close (some 0) ∧
    chmodRefused.existsSync "svc.local.crt" () = true ∧
    chmodRefused.existsSync "svc.local.key" () = true ∧
    (CertificateManager.generateCertificate chmodRefused exampleConfig "svc.local"
      ProcWorld.start).1 =
        .error (JsError.runtime "EPERM: operation not permitted, chmod") :=
  ⟨by decide, by decide, rfl, rfl, rfl, rfl⟩

/-! ### Authentication -/

theorem authenticateNPM_of_missing {σ : Type} (rt : Runtime σ) (config : Config)
    (w : World σ)
    (h : config.npm.url = "" ∨ config.npm.email = "" ∨ config.npm.password = "") :
    CertificateManager.authenticateNPM rt config w =
      (.error (JsError.mk "Missing NPM configuration. Please run: tcf configure"), w) := by
  simp only [CertificateManager.authenticateNPM, h, if_true]

theorem authenticateNPM_of_url {σ : Type} (rt : Runtime σ) (config : Config) (w : World σ)
    (apiUrl : URLRecord) (hu : config.npm.url ≠ "") (he : config.npm.email ≠ "")
    (hp : config.npm.password ≠ "")
    (hurl : rt.newURL "/api/tokens" config.npm.url = .ok apiUrl) :
    CertificateManager.authenticateNPM rt config w =
      match HttpManager.makeRequest rt
          (RequestOptions.mk apiUrl.hostname
            (if apiUrl.port ≠ "" then JsVal.str apiUrl.port
              else (if apiUrl.protocol = "https:" then JsVal.num 443 else JsVal.num 80))
            apiUrl.pathname "POST" [("Content-Type", JsVal.str "application/json")])
          (some (JsVal.obj [("identity", JsVal.str config.npm.email),
            ("secret", JsVal.str config.npm.password)]))
          (HttpManager.getHttpModule config.npm.url) w with
      | (.error e, w1) => (.error e, w1)
      | (.ok data, w1) =>
        match data.getProp "token" with
        | none => (.error (JsError.runtime "TypeError"), w1)
        | some token =>
          if !token.truthy then
            (.error (JsError.mk "Authentication failed: No token received"), w1)
          else
            (.ok token, w1) := by
  simp only [CertificateManager.authenticateNPM, hu, he, hp, or_self, if_false, hurl]

/-- C11 (as amended): `authenticateNPM` fails, sending nothing, when `npm.url`,
`npm.email` or `npm.password` is empty. Otherwise, when the URL parses, it sends
one `POST` with the JSON body `identity: email`, `secret: password` to the path
of `/api/tokens`; on a response with a success status it returns the `token` of
the parsed response exactly when that token is present and truthy, and fails
with the authentication error exactly when the parsed response is not `null`
and its token is absent or falsy. -/
theorem C11_authenticate_outcome {σ : Type} (rt : Runtime σ) (config : Config)
    (w : World σ) :
    ((config.npm.url = "" ∨ config.npm.email = "" ∨ config.npm.password = "") →
      CertificateManager.authenticateNPM rt config w =
        (.error (JsError.mk "Missing NPM configuration. Please run: tcf configure"), w)) ∧
    (config.npm.url ≠ "" → config.npm.email ≠ "" → config.npm.password ≠ "" →
      ∀ apiUrl, rt.newURL "/api/tokens" config.npm.url = .ok apiUrl →
      ∃ sent,
        (CertificateManager.authenticateNPM rt config w).2.sent = w.sent ++ [sent] ∧
        sent.module = HttpManager.getHttpModule config.npm.url ∧
        sent.options.method = "POST" ∧
        sent.options.path = apiUrl.pathname ∧
        sent.options.headers = [("Content-Type", JsVal.str "application/json")] ∧
        sent.body = Payload.json (JsVal.obj [("identity", JsVal.str config.npm.email),
          ("secret", JsVal.str config.npm.password)]) ∧
        ∀ statusCode chunks,
          (rt.exchange sent w.remote).1 = NetResult.response statusCode chunks →
          (200 ≤ statusCode ∧ statusCode < 300) →
          (∀ token, (CertificateManager.authenticateNPM rt config w).1 = .ok token ↔
            (((rt.jsonParse (HttpManager.accumulate rt chunks)).getD
                (JsVal.str (HttpManager.accumulate rt chunks))).getProp "token" =
                some token ∧
              token.truthy = true)) ∧
          ((CertificateManager.authenticateNPM rt config w).1 =
              .error (JsError.mk "Authentication failed: No token received") ↔
            ∃ token,
              ((rt.jsonParse (HttpManager.accumulate rt chunks)).getD
                (JsVal.str (HttpManager.accumulate rt chunks))).getProp "token" =
                some token ∧
              token.truthy = false)) := by
  refine ⟨authenticateNPM_of_missing rt config w, ?_⟩
  intro hu he hp apiUrl hurl
  have hgen := authenticateNPM_of_url rt config w apiUrl hu he hp hurl
  have hsent := makeRequest_sent rt
    (RequestOptions.mk apiUrl.hostname
      (if apiUrl.port ≠ "" then JsVal.str apiUrl.port
        else (if apiUrl.protocol = "https:" then JsVal.num 443 else JsVal.num 80))
      apiUrl.pathname "POST" [("Content-Type", JsVal.str "application/json")])
    (some (JsVal.obj [("identity", JsVal.str config.npm.email),
      ("secret", JsVal.str config.npm.password)]))
    (HttpManager.getHttpModule config.npm.url) w
  refine ⟨Sent.mk (HttpManager.getHttpModule config.npm.url)
    (RequestOptions.mk apiUrl.hostname
      (if apiUrl.port ≠ "" then JsVal.str apiUrl.port
        else (if apiUrl.protocol = "https:" then JsVal.num 443 else JsVal.num 80))
      apiUrl.pathname "POST" [("Content-Type", JsVal.str "application/json")])
    (Payload.json (JsVal.obj [("identity", JsVal.str config.npm.email),
      ("secret", JsVal.str config.npm.password)])), ?_, rfl, rfl, rfl, rfl, rfl, ?_⟩
  · rw [hgen]
    rcases hm : HttpManager.makeRequest rt
      (RequestOptions.mk apiUrl.hostname
        (if apiUrl.port ≠ "" then JsVal.str apiUrl.port
          else (if apiUrl.protocol = "https:" then JsVal.num 443 else JsVal.num 80))
        apiUrl.pathname "POST" [("Content-Type", JsVal.str "application/json")])
      (some (JsVal.obj [("identity", JsVal.str config.npm.email),
        ("secret", JsVal.str config.npm.password)]))
      (HttpManager.getHttpModule config.npm.url) w with ⟨res, w1⟩
    rw [hm] at hsent
    cases res with
    | error e => exact hsent
    | ok data =>
      simp only
      cases data.getProp "token" with
      | none => exact hsent
      | some token =>
        simp only
        split <;> exact hsent
  · intro statusCode chunks hex hs
    have hres := makeRequest_of_response rt
      (RequestOptions.mk apiUrl.hostname
        (if apiUrl.port ≠ "" then JsVal.str apiUrl.port
          else (if apiUrl.protocol = "https:" then JsVal.num 443 else JsVal.num 80))
        apiUrl.pathname "POST" [("Content-Type", JsVal.str "application/json")])
      (some (JsVal.obj [("identity", JsVal.str config.npm.email),
        ("secret", JsVal.str config.npm.password)]))
      (HttpManager.getHttpModule config.npm.url) w statusCode chunks hex
    rw [if_pos hs] at hres
    rw [hgen]
    rcases hm : HttpManager.makeRequest rt
      (RequestOptions.mk apiUrl.hostname
        (if apiUrl.port ≠ "" then JsVal.str apiUrl.port
          else (if apiUrl.protocol = "https:" then JsVal.num 443 else JsVal.num 80))
        apiUrl.pathname "POST" [("Content-Type", JsVal.str "application/json")])
      (some (JsVal.obj [("identity", JsVal.str config.npm.email),
        ("secret", JsVal.str config.npm.password)]))
      (HttpManager.getHttpModule config.npm.url) w with ⟨res, w1⟩
    rw [hm] at hres
    simp only at hres
    subst hres
    simp only
    cases hget : ((rt.jsonParse (HttpManager.accumulate rt chunks)).getD
      (JsVal.str (HttpManager.accumulate rt chunks))).getProp "token" with
    | none =>
      constructor
      · intro token
        constructor
        · intro h
          cases h
        · rintro ⟨h, _⟩
          cases h
      · constructor
        · intro h
          cases h
        · rintro ⟨token, h, _⟩
          cases h
    | some v =>
      simp only
      cases hv : v.truthy with
      | true =>
        simp only [Bool.not_true, Bool.false_eq_true, if_false]
        constructor
        · intro token
          constructor
          · intro h
            cases h
            exact ⟨rfl, hv⟩
          · rintro ⟨h, _⟩
            cases h
            rfl
        · constructor
          · intro h
            cases h
          · rintro ⟨token, h, ht⟩
            cases h
            rw [hv] at ht
            cases ht
      | false =>
        simp only [Bool.not_false, if_true]
        constructor
        · intro token
          constructor
          · intro h
            cases h
          · rintro ⟨h, ht⟩
            cases h
            rw [hv] at ht
            cases ht
        · constructor
          · intro _
            exact ⟨v, rfl, hv⟩
          · intro _
            trivial

/-- Witness for C11: the response with the token `abc` yields `abc`. -/
theorem C11_authenticate_outcome_witness :
    (CertificateManager.authenticateNPM tokenRuntime exampleConfig World.start).1 =
      .ok (JsVal.str "abc") := by
  obtain ⟨sent, hsent, _, _, _, _, _, hout⟩ :=
    (C11_authenticate_outcome tokenRuntime exampleConfig World.start).2
      (by decide) (by decide) (by decide)
      { protocol := "https:", hostname := "npm.local", port := "", pathname := "/api/tokens" }
      rfl
  have hs : sent = ((CertificateManager.authenticateNPM tokenRuntime exampleConfig
      World.start).2.sent.getLast?.getD sent) := by
    rw [hsent]
    simp
  have hex : (tokenRuntime.exchange sent World.start.remote).1 =
      NetResult.response 201 [utf8 "\x7b\"token\":\"abc\"\x7d"] := by
    rw [hs]
    rfl
  exact ((hout 201 [utf8 "\x7b\"token\":\"abc\"\x7d"] hex (by decide)).1
    (JsVal.str "abc")).mpr ⟨rfl, rfl⟩

/-- The example of the claim: the empty object as response fails with the
authentication error. -/
theorem authenticateNPM_empty_object :
    (CertificateManager.authenticateNPM noTokenRuntime exampleConfig World.start).1 =
      .error (JsError.mk "Authentication failed: No token received") :=
  rfl

/-- Counterexample to C11 as stated: the parsed response has a `token` field,
equal to the empty string, and the call fails with the authentication error
instead of returning the value of the field. -/
theorem C11_fails_with_token_field_present :
    (emptyTokenRuntime.exchange
        (Sent.mk HttpModule.https
          (RequestOptions.mk "npm.local" (JsVal.num 443) "/api/tokens" "POST"
            [("Content-Type", JsVal.str "application/json")])
          (Payload.json (JsVal.obj [("identity", JsVal.str "me@npm.local"),
            ("secret", JsVal.str "secret")]))) ()).1 =
      NetResult.response 201 [utf8 "\x7b\"token\":\"\"\x7d"] ∧
    emptyTokenRuntime.jsonParse
        (HttpManager.accumulate emptyTokenRuntime [utf8 "\x7b\"token\":\"\"\x7d"]) =
      some (JsVal.obj [("token", JsVal.str "")]) ∧
    (JsVal.obj [("token", JsVal.str "")]).hasField "token" = true ∧
    (CertificateManager.authenticateNPM emptyTokenRuntime exampleConfig World.start).2.sent =
      [Sent.mk HttpModule.https
        (RequestOptions.mk "npm.local" (JsVal.num 443) "/api/tokens" "POST"
          [("Content-Type", JsVal.str "application/json")])
        (Payload.json (JsVal.obj [("identity", JsVal.str "me@npm.local"),
          ("secret", JsVal.str "secret")]))] ∧
    (CertificateManager.authenticateNPM emptyTokenRuntime exampleConfig World.start).1 =
      .error (JsError.mk "Authentication failed: No token received") :=
  ⟨rfl, rfl, rfl, rfl, rfl⟩

end TandemCertForge
